import Mathlib

/-!
Verification of the OS/161-style virtual-memory subsystem
(`kern/vm/vm.c` and the address-space implementation).

The C code is shallowly embedded: machine words (`vaddr_t`, `paddr_t`,
`size_t`, `int`) become `Nat` with explicit `% 2^32` wherever 32-bit
wrap-around is possible; two-level page tables become
`Nat → Option (Nat → Nat)` (a level-1 slot is either absent (`NULL`) or a
level-2 array of PTE words); physical memory becomes `Nat → Nat` (byte
address to byte value); the external allocators become oracles supplying
the addresses that `alloc_upages` / `alloc_kpages` would return.
Each definition mirrors the corresponding C function statement by
statement; comments note the few spots where a C idiom (pointer
out-parameter, `KASSERT`, kernel-heap success) is rendered structurally.
-/

namespace VM

/-! ## Architecture constants (from `machine/vm.h` / `machine/tlb.h`) -/

def PAGE_SIZE : Nat := 4096

def PAGE_FRAME : Nat := 0xfffff000

def TABLE_SIZE : Nat := 1024

def MIPS_KSEG0 : Nat := 0x80000000

def TLBLO_DIRTY : Nat := 0x400

def TLBLO_VALID : Nat := 0x200

def USERSTACK : Nat := MIPS_KSEG0

def STACK_NPAGES : Nat := 16

/-- Modulus of 32-bit machine arithmetic. -/
def U32 : Nat := 2 ^ 32

/-- Region permission flags; a 3-bit {R,W,X} set (header not in `src/`,
bit assignment follows the ELF `PF_R`/`PF_W`/`PF_X` convention the code
relies on: three distinct single bits inside `0x7`). -/
def RF_R : Nat := 4

def RF_W : Nat := 2

def RF_X : Nat := 1

/-- Error codes from `kern/errno.h` (header not in `src/`); only their
distinctness and identity matter to the claims. -/
def EFAULT : Nat := 6

def EINVAL : Nat := 8

def ENOMEM : Nat := 3

/-- Fault kinds from `vm.h`. -/
def VM_FAULT_READ : Nat := 0

def VM_FAULT_WRITE : Nat := 1

def VM_FAULT_READONLY : Nat := 2

/-! ## Page-table store (vm.c)

A level-2 table is a 1024-entry array of PTE words; a level-1 table maps
a level-1 index to `NULL` (`none`) or an owned level-2 table. -/

abbrev L2 : Type := Nat → Nat

abbrev PT : Type := Nat → Option L2

/-- First-level table index: `vaddr >> 22`. -/
def indexT1 (vaddr : Nat) : Nat := vaddr >>> 22

/-- Second-level table index: `(vaddr >> 12) & (~(vaddr_t)PAGE_FRAME >> 2)`.
The 32-bit complement of `PAGE_FRAME` is written as XOR with the all-ones
word. -/
def indexT2 (vaddr : Nat) : Nat :=
  (vaddr >>> 12) &&& ((0xffffffff ^^^ PAGE_FRAME) >>> 2)

/-- `pagetable_insert` from vm.c: stores `entry` at the slot for `vaddr`,
allocating and zero-filling the second-level table if absent.  (The
`alloc_kpages` call for the level-2 table is modelled as succeeding;
the C code does not check it either.) -/
def pagetable_insert (pagetable : PT) (vaddr entry : Nat) : PT :=
  let i1 := indexT1 vaddr
  let i2 := indexT2 vaddr
  match pagetable i1 with
  | none =>
      fun a => if a = i1 then some (fun b => if b = i2 then entry else 0)
               else pagetable a
  | some t2 =>
      fun a => if a = i1 then some (fun b => if b = i2 then entry else t2 b)
               else pagetable a

/-- `pagetable_lookup` from vm.c.  The C function writes the result
through an out-parameter and never touches the table; it is rendered as
a pure function returning the entry (0 when the level-2 table or the
PTE is absent, exactly as the C writes `*entry = 0`). -/
def pagetable_lookup (pagetable : PT) (vaddr : Nat) : Nat :=
  match pagetable (indexT1 vaddr) with
  | none => 0
  | some t2 => t2 (indexT2 vaddr)

/-- Loop body of `pagetable_update` from vm.c.  `i` is the loop
variable, `vend` the end of the range.  When the level-2 table is
absent the C code sets `i = i + TABLE_SIZE*PAGE_SIZE -
i%(TABLE_SIZE*PAGE_SIZE) - PAGE_SIZE` and the `for` increment adds
`PAGE_SIZE` back, so the next iteration starts at the next 4 MiB
boundary; that net jump is taken here directly.  When an entry is
present and non-zero its DIRTY bit is XOR-toggled, as in the source.
The `fuel` argument only bounds the recursion: every iteration strictly
increases `i`, so `fuel = vend` (supplied by `pagetable_update`) is
never exhausted while `i < vend`. -/
def pagetable_update_go (vend : Nat) : Nat → PT → Nat → PT
  | 0, pagetable, _ => pagetable
  | fuel + 1, pagetable, i =>
    if i < vend then
      match pagetable (indexT1 i) with
      | none =>
          pagetable_update_go vend fuel pagetable
            (i + TABLE_SIZE * PAGE_SIZE - i % (TABLE_SIZE * PAGE_SIZE))
      | some t2 =>
          pagetable_update_go vend fuel
            (if t2 (indexT2 i) ≠ 0 then
               fun a => if a = indexT1 i then
                          some (fun b => if b = indexT2 i then
                                           t2 (indexT2 i) ^^^ TLBLO_DIRTY
                                         else t2 b)
                        else pagetable a
             else pagetable)
            (i + PAGE_SIZE)
    else pagetable

/-- `pagetable_update` from vm.c: walks `[reg_vbase, reg_vbase +
reg_npages*PAGE_SIZE)` page by page and XOR-toggles the DIRTY bit of
every existing PTE.  `reg_vend` is computed in 32-bit arithmetic as in
the C source; the `KASSERT(reg_vend <= MIPS_KSEG0)` precondition
appears as a hypothesis of the theorems that need it. -/
def pagetable_update (pagetable : PT) (reg_vbase reg_npages : Nat) : PT :=
  let reg_vend := (reg_vbase + reg_npages * PAGE_SIZE) % U32
  pagetable_update_go reg_vend reg_vend pagetable reg_vbase

/-- The empty page table: a freshly allocated, zeroed level-1 table. -/
def emptyPT : PT := fun _ => none

/-! ## Regions and address spaces (addrspace implementation) -/

/-- `struct region`: virtual base, page count, permission word.  The
singly linked `reg_next` chain is rendered as a `List`. -/
structure Region where
  reg_vbase : Nat
  reg_npages : Nat
  permissions : Nat
deriving DecidableEq

/-- `struct addrspace`: the owned region list and the two-level page
table. -/
structure Addrspace where
  regions : List Region
  pagetable : PT

/-- Physical memory as seen through kernel virtual addresses (the KSEG0
direct map): byte address to byte value. -/
abbrev Mem : Type := Nat → Nat

/-- `PADDR_TO_KVADDR(paddr) = paddr + MIPS_KSEG0` in 32-bit
arithmetic. -/
def PADDR_TO_KVADDR (paddr : Nat) : Nat := (paddr + MIPS_KSEG0) % U32

/-- `KVADDR_TO_PADDR(vaddr) = vaddr - MIPS_KSEG0` in 32-bit arithmetic;
subtracting `2^31` modulo `2^32` is the same as adding `2^31`. -/
def KVADDR_TO_PADDR (vaddr : Nat) : Nat := (vaddr + MIPS_KSEG0) % U32

/-- `as_create`: empty region list, zero-filled level-1 table (the
kernel-heap allocations are modelled as succeeding). -/
def as_create : Addrspace := ⟨[], emptyPT⟩

/-- `as_define_region`: rejects an all-zero permission set, page-aligns
the range, appends one region at the list tail.  `size_t` arithmetic is
32-bit, hence the `% U32`.  The `kmalloc` of the region record is
modelled as succeeding (the claims only concern that case). -/
def as_define_region (as : Addrspace)
    (vaddr memsize readable writeable executable : Nat) : Nat × Addrspace :=
  if readable ||| writeable ||| executable = 0 then (EINVAL, as)
  else
    (0, ⟨as.regions ++
      [⟨vaddr &&& PAGE_FRAME,
        (((memsize + (vaddr &&& (0xffffffff ^^^ PAGE_FRAME))) % U32 + PAGE_SIZE - 1) % U32
            &&& PAGE_FRAME) / PAGE_SIZE,
        readable ||| writeable ||| executable⟩],
      as.pagetable⟩)

/-- `as_define_stack`: defines the `STACK_NPAGES`-page {R,W} region
ending at `USERSTACK` and reports `USERSTACK` as the initial stack
pointer (the C out-parameter becomes the last component). -/
def as_define_stack (as : Addrspace) : Nat × Addrspace × Nat :=
  let r := as_define_region as (USERSTACK - STACK_NPAGES * PAGE_SIZE)
             (STACK_NPAGES * PAGE_SIZE) RF_R RF_W 0
  (r.1, r.2, USERSTACK)

/-- `as_prepare_load`: each region's permission word becomes
`permissions << 3 | RF_R | RF_W` (32-bit arithmetic). -/
def as_prepare_load (as : Addrspace) : Addrspace :=
  ⟨as.regions.map
      (fun r => { r with permissions := (r.permissions <<< 3 ||| RF_R ||| RF_W) % U32 }),
   as.pagetable⟩

/-- Loop of `as_complete_load`: restore each region's permissions to
`permissions >> 3 & 0x7` and, when the restored set lacks `RF_W`, run
`pagetable_update` over the region's page range; the page table is
threaded through the walk in list order. -/
def as_complete_load_go : List Region → PT → List Region × PT
  | [], pagetable => ([], pagetable)
  | r :: rs, pagetable =>
    ({ r with permissions := (r.permissions >>> 3) &&& 0x7 } ::
       (as_complete_load_go rs
         (if ((r.permissions >>> 3) &&& 0x7) &&& RF_W = 0 then
            pagetable_update pagetable r.reg_vbase r.reg_npages
          else pagetable)).1,
     (as_complete_load_go rs
       (if ((r.permissions >>> 3) &&& 0x7) &&& RF_W = 0 then
          pagetable_update pagetable r.reg_vbase r.reg_npages
        else pagetable)).2)

/-- `as_complete_load` (the trailing TLB flush has no observable effect
on the address space and is not part of the state modelled here). -/
def as_complete_load (as : Addrspace) : Addrspace :=
  ⟨(as_complete_load_go as.regions as.pagetable).1,
   (as_complete_load_go as.regions as.pagetable).2⟩

/-! ## Fault handler (`vm_fault` from vm.c) -/

/-- The region-containment test of the `vm_fault` scan loop:
`faultaddress >= reg_vbase && faultaddress < reg_vbase +
reg_npages*PAGE_SIZE`, the bound computed in 32-bit arithmetic. -/
def region_contains (r : Region) (faultaddress : Nat) : Bool :=
  decide (r.reg_vbase ≤ faultaddress) &&
  decide (faultaddress < (r.reg_vbase + r.reg_npages * PAGE_SIZE) % U32)

/-- The `while` scan of the region list: first region containing the
address, if any. -/
def find_region : List Region → Nat → Option Region
  | [], _ => none
  | r :: rs, faultaddress =>
    if region_contains r faultaddress then some r else find_region rs faultaddress

/-- Result of `vm_fault`: the returned error code, the (possibly
updated) address space, and physical memory.  The TLB write
(`tlb_random` under `splhigh`) programs hardware state outside the
structures the claims are about and is not modelled. -/
structure FaultResult where
  code : Nat
  as : Option Addrspace
  mem : Mem

/-- `vm_fault` from vm.c, statement by statement: the fault-kind
switch, the `curproc`/address-space checks (`hasProc` stands for
`curproc != NULL`), the page-table lookup, the region scan, and the
allocation path.  `alloc` is the value `alloc_upages(1)` returns (the C
code uses it unchecked; its `KASSERT`s hold even for 0).  The zero-fill
of the new frame is commented out in the source (`//bzero(...)`), so
memory passes through unchanged. -/
def vm_fault (hasProc : Bool) (as? : Option Addrspace) (alloc : Nat)
    (mem : Mem) (faulttype faultaddress : Nat) : FaultResult :=
  if faulttype = VM_FAULT_READONLY then ⟨EFAULT, as?, mem⟩
  else if faulttype = VM_FAULT_READ ∨ faulttype = VM_FAULT_WRITE then
    if hasProc then
      match as? with
      | none => ⟨EFAULT, none, mem⟩
      | some as =>
        if pagetable_lookup as.pagetable faultaddress ≠ 0 then ⟨0, some as, mem⟩
        else
          match find_region as.regions faultaddress with
          | some cur_reg =>
            ⟨0, some ⟨as.regions,
               pagetable_insert as.pagetable faultaddress
                 (if cur_reg.permissions &&& RF_W ≠ 0 then
                    (alloc ||| TLBLO_VALID) ||| TLBLO_DIRTY
                  else alloc ||| TLBLO_VALID)⟩,
             mem⟩
          | none => ⟨EFAULT, some as, mem⟩
    else ⟨EFAULT, as?, mem⟩
  else ⟨EINVAL, as?, mem⟩

/-- The address space after a `vm_fault` on a live process; `vm_fault`
always returns the address space it was given (updated or not), so the
default branch is never taken. -/
def vm_fault_as (hasProc : Bool) (as : Addrspace) (alloc : Nat) (mem : Mem)
    (faulttype faultaddress : Nat) : Addrspace :=
  match (vm_fault hasProc (some as) alloc mem faulttype faultaddress).as with
  | some as1 => as1
  | none => as

/-! ## Address-space copy (`as_copy`) -/

/-- `memmove(dst, src, n)` over the byte-addressed memory model. -/
def memmove (mem : Mem) (dst src n : Nat) : Mem :=
  fun a => if dst ≤ a ∧ a < dst + n then mem (src + (a - dst)) else mem a

/-- The PTE `as_copy` installs for a copied page: `KVADDR_TO_PADDR(paddr)
| TLBLO_VALID`, plus `TLBLO_DIRTY` when the old entry had it. -/
def newPTE (paddr old_pte : Nat) : Nat :=
  let e0 := KVADDR_TO_PADDR paddr ||| TLBLO_VALID
  if old_pte &&& TLBLO_DIRTY ≠ 0 then e0 ||| TLBLO_DIRTY else e0

/-- Result of the inner (`j`) loop of `as_copy`: error code (0 or
`ENOMEM`), the built level-2 table, the next allocation-oracle index,
and memory. -/
structure CopyL2Result where
  code : Nat
  table : L2
  ctr : Nat
  mem : Mem

/-- Result of the outer (`i`) loop of `as_copy`. -/
structure CopyPTResult where
  code : Nat
  pt : PT
  ctr : Nat
  mem : Mem

/-- Inner loop of `as_copy` over the slots of one old level-2 table
`t2`: for a non-zero old PTE, draw the next frame from the
`alloc_kpages` oracle (`alloc ctr`; 0 models allocation failure, which
the C code checks and answers with `ENOMEM`), `memmove` one page from
the old frame (addressed through the direct map,
`PADDR_TO_KVADDR(old_pte) & PAGE_FRAME`) to the new frame, and install
`newPTE`; for a zero old PTE store 0.  The C loop writes every slot of
the freshly allocated table, so the accumulator's initial content never
survives for `j < TABLE_SIZE`. -/
def as_copy_slots (t2 : L2) (alloc : Nat → Nat) :
    List Nat → L2 → Nat → Mem → CopyL2Result
  | [], acc, ctr, mem => ⟨0, acc, ctr, mem⟩
  | j :: js, acc, ctr, mem =>
    if t2 j ≠ 0 then
      if alloc ctr = 0 then ⟨ENOMEM, acc, ctr, mem⟩
      else
        as_copy_slots t2 alloc js
          (fun b => if b = j then newPTE (alloc ctr) (t2 j) else acc b) (ctr + 1)
          (memmove mem (alloc ctr) (PADDR_TO_KVADDR (t2 j) &&& PAGE_FRAME) PAGE_SIZE)
    else
      as_copy_slots t2 alloc js (fun b => if b = j then 0 else acc b) ctr mem

/-- Outer loop of `as_copy` over the level-1 slots: absent old level-2
tables stay absent; present ones are deep-copied slot by slot.  (The
`alloc_kpages` call for the new level-2 table itself is modelled as
succeeding, as tables are functions here; only frame allocations go
through the oracle.) -/
def as_copy_tables (oldpt : PT) (alloc : Nat → Nat) :
    List Nat → PT → Nat → Mem → CopyPTResult
  | [], acc, ctr, mem => ⟨0, acc, ctr, mem⟩
  | i :: is, acc, ctr, mem =>
    match oldpt i with
    | none => as_copy_tables oldpt alloc is (fun a => if a = i then none else acc a) ctr mem
    | some t2 =>
      if (as_copy_slots t2 alloc (List.range TABLE_SIZE) (fun _ => 0) ctr mem).code ≠ 0 then
        ⟨(as_copy_slots t2 alloc (List.range TABLE_SIZE) (fun _ => 0) ctr mem).code,
         fun a => if a = i then
                    some (as_copy_slots t2 alloc (List.range TABLE_SIZE) (fun _ => 0) ctr mem).table
                  else acc a,
         (as_copy_slots t2 alloc (List.range TABLE_SIZE) (fun _ => 0) ctr mem).ctr,
         (as_copy_slots t2 alloc (List.range TABLE_SIZE) (fun _ => 0) ctr mem).mem⟩
      else
        as_copy_tables oldpt alloc is
          (fun a => if a = i then
                      some (as_copy_slots t2 alloc (List.range TABLE_SIZE) (fun _ => 0) ctr mem).table
                    else acc a)
          (as_copy_slots t2 alloc (List.range TABLE_SIZE) (fun _ => 0) ctr mem).ctr
          (as_copy_slots t2 alloc (List.range TABLE_SIZE) (fun _ => 0) ctr mem).mem

/-- Region-duplication loop of `as_copy`: re-derive the three
permission flags from the permission word and re-define each region in
the new address space, stopping at the first failure. -/
def as_copy_regions : List Region → Addrspace → Nat × Addrspace
  | [], newas => (0, newas)
  | r :: rs, newas =>
    if (as_define_region newas r.reg_vbase ((r.reg_npages * PAGE_SIZE) % U32)
          (r.permissions &&& RF_R) (r.permissions &&& RF_W)
          (r.permissions &&& RF_X)).1 ≠ 0 then
      as_define_region newas r.reg_vbase ((r.reg_npages * PAGE_SIZE) % U32)
        (r.permissions &&& RF_R) (r.permissions &&& RF_W) (r.permissions &&& RF_X)
    else
      as_copy_regions rs
        (as_define_region newas r.reg_vbase ((r.reg_npages * PAGE_SIZE) % U32)
          (r.permissions &&& RF_R) (r.permissions &&& RF_W)
          (r.permissions &&& RF_X)).2

/-- `as_copy` from the address-space implementation: duplicate the
region list, then deep-copy the page table and its frames.  Returns the
error code, the new address space, and the resulting memory. -/
def as_copy (old : Addrspace) (alloc : Nat → Nat) (mem : Mem) :
    Nat × Addrspace × Mem :=
  if (as_copy_regions old.regions as_create).1 ≠ 0 then
    ((as_copy_regions old.regions as_create).1,
     (as_copy_regions old.regions as_create).2, mem)
  else
    ((as_copy_tables old.pagetable alloc (List.range TABLE_SIZE)
        (as_copy_regions old.regions as_create).2.pagetable 0 mem).code,
     ⟨(as_copy_regions old.regions as_create).2.regions,
      (as_copy_tables old.pagetable alloc (List.range TABLE_SIZE)
        (as_copy_regions old.regions as_create).2.pagetable 0 mem).pt⟩,
     (as_copy_tables old.pagetable alloc (List.range TABLE_SIZE)
        (as_copy_regions old.regions as_create).2.pagetable 0 mem).mem)

/-! ## Counting helpers for the allocation oracle -/

/-- Number of non-zero PTEs among the first `n` slots of a level-2
table: the allocation-oracle index advances by one for each. -/
def countNZ (t2 : L2) (n : Nat) : Nat :=
  (List.range n).countP (fun k => decide (t2 k ≠ 0))

/-- Number of frame allocations `as_copy` performs before reaching
level-1 slot `n`. -/
def preCount (pt : PT) (n : Nat) : Nat :=
  ((List.range n).map (fun i =>
    match pt i with
    | none => 0
    | some t2 => countNZ t2 TABLE_SIZE)).sum

/-- Non-zero PTEs of `t2` among slots `[j, j+n)`. -/
def countRange (t2 : L2) (j n : Nat) : Nat :=
  (List.range' j n).countP (fun k => decide (t2 k ≠ 0))

/-- Frame allocations over level-1 slots `[i, i+n)`. -/
def preCountRange (pt : PT) (i n : Nat) : Nat :=
  ((List.range' i n).map (fun a =>
    match pt a with
    | none => 0
    | some t2 => countNZ t2 TABLE_SIZE)).sum

/-- Direct-map kernel virtual address of the frame an old PTE
references, as `as_copy` computes it:
`PADDR_TO_KVADDR(old_pte) & PAGE_FRAME`. -/
def srcAddr (pte : Nat) : Nat := PADDR_TO_KVADDR pte &&& PAGE_FRAME

/-- The level-2 table `as_copy` builds from old table `t2` when the
allocation counter stood at `c` on entry: slot `b` holds `newPTE` of
the `(c + countRange t2 0 b)`-th oracle frame when the old slot is
non-zero, and 0 otherwise. -/
def newT2 (alloc : Nat → Nat) (t2 : L2) (c : Nat) : L2 :=
  fun b => if b < TABLE_SIZE then
             (if t2 b ≠ 0 then newPTE (alloc (c + countRange t2 0 b)) (t2 b) else 0)
           else 0

/-! ## Reachable address-space states -/

/-- Address spaces reachable from `as_create` through the public
operations: `as_define_region`, `as_define_stack`, `as_prepare_load`,
`as_complete_load`, successful `as_copy`, and `vm_fault` (with
arbitrary process flag, allocator result, memory, fault kind and
address). -/
inductive Reach : Addrspace → Prop where
  | create : Reach as_create
  | defineRegion (as : Addrspace) (v m r w x : Nat) :
      Reach as → Reach (as_define_region as v m r w x).2
  | defineStack (as : Addrspace) :
      Reach as → Reach (as_define_stack as).2.1
  | prepareLoad (as : Addrspace) :
      Reach as → Reach (as_prepare_load as)
  | completeLoad (as : Addrspace) :
      Reach as → Reach (as_complete_load as)
  | copy (old : Addrspace) (alloc : Nat → Nat) (mem : Mem) :
      Reach old → (as_copy old alloc mem).1 = 0 →
      Reach (as_copy old alloc mem).2.1
  | fault (as : Addrspace) (hasProc : Bool) (alloc : Nat) (mem : Mem)
      (faulttype faultaddress : Nat) :
      Reach as → Reach (vm_fault_as hasProc as alloc mem faulttype faultaddress)

/-- Slot-wise form of the VALID invariant: every non-zero PTE stored
anywhere in the table has the VALID bit set. -/
def PTValid (pt : PT) : Prop :=
  ∀ i t2 j, pt i = some t2 → t2 j ≠ 0 → t2 j &&& TLBLO_VALID ≠ 0

/-! ## Concrete states used by the closed theorems and witnesses -/

/-- One {R,W} page at `0x00400000`. -/
def reg1 : Region := ⟨0x400000, 1, RF_R ||| RF_W⟩

/-- Address space with `reg1` and an empty page table. -/
def as1 : Addrspace := ⟨[reg1], emptyPT⟩

/-- Memory whose every byte is `0xAA` (stale data from a previous
owner). -/
def memAA : Mem := fun _ => 0xAA

/-- Page table holding the single PTE `TLBLO_VALID` (non-zero, DIRTY
clear) at `0x00400000`. -/
def pt1 : PT := pagetable_insert emptyPT 0x400000 TLBLO_VALID

/-- Address space built by `as_define_region` on a fresh address
space. -/
def as9 : Addrspace := (as_define_region as_create 0x400000 PAGE_SIZE RF_R RF_W 0).2

/-- One {R,X} region, as a loader would define program text. -/
def as4 : Addrspace := ⟨[⟨0x400000, 1, RF_R ||| RF_X⟩], emptyPT⟩

/-- `as9` after a READ fault at `0x00400000` was served by installing a
fresh frame. -/
def as9f : Addrspace := vm_fault_as true as9 0x2000 memAA VM_FAULT_READ 0x400000

/-- Slot-wise VALID property of a single level-2 table. -/
def L2Valid (t2 : L2) : Prop := ∀ b, t2 b ≠ 0 → t2 b &&& TLBLO_VALID ≠ 0

/-- The page-table fold `as_complete_load` performs: run
`pagetable_update` over the page range of every region whose (restored)
permissions lack `RF_W`, in list order. -/
def update_readonly_regions (rs : List Region) (pagetable : PT) : PT :=
  List.foldl
    (fun pt r =>
      if r.permissions &&& RF_W = 0 then pagetable_update pt r.reg_vbase r.reg_npages
      else pt)
    pagetable rs

/-! ## Bit-arithmetic bridge lemmas -/

theorem and_4095 (x : Nat) : x &&& 4095 = x % 4096 := by
  have h := Nat.and_pow_two_sub_one_eq_mod x 12
  norm_num at h
  exact h

theorem and_1023 (x : Nat) : x &&& 1023 = x % 1024 := by
  have h := Nat.and_pow_two_sub_one_eq_mod x 10
  norm_num at h
  exact h

theorem indexT2_eq (v : Nat) : indexT2 v = (v >>> 12) % 1024 := by
  have h : (0xffffffff ^^^ PAGE_FRAME) >>> 2 = 1023 := by decide
  rw [indexT2, h, and_1023]

theorem indexT1_lt (v : Nat) (hv : v < U32) : indexT1 v < TABLE_SIZE := by
  have h : v >>> 22 = v / 2 ^ 22 := Nat.shiftRight_eq_div_pow v 22
  rw [indexT1, h]
  have : v / 2 ^ 22 < 2 ^ 10 := by
    apply Nat.div_lt_of_lt_mul
    calc v < U32 := hv
    _ = 2 ^ 22 * 2 ^ 10 := by norm_num [U32]
  simpa [TABLE_SIZE] using this

theorem and_pageframe (x : Nat) :
    x &&& PAGE_FRAME = x % U32 / PAGE_SIZE * PAGE_SIZE := by
  have hmask : PAGE_FRAME = (2 ^ 20 - 1) <<< 12 := by decide
  have hrhs : x % U32 / PAGE_SIZE * PAGE_SIZE = ((x % 2 ^ 32) >>> 12) <<< 12 := by
    rw [Nat.shiftRight_eq_div_pow, Nat.shiftLeft_eq]
    norm_num [U32, PAGE_SIZE]
  rw [hmask, hrhs]
  apply Nat.eq_of_testBit_eq
  intro i
  simp only [Nat.testBit_and, Nat.testBit_shiftLeft, Nat.testBit_shiftRight,
    Nat.testBit_mod_two_pow, Nat.testBit_two_pow_sub_one]
  by_cases h12 : 12 ≤ i
  · have hi : 12 + (i - 12) = i := by omega
    by_cases h32 : i < 32
    · have h20 : i - 12 < 20 := by omega
      simp [h12, hi, h32, h20, Bool.and_comm]
    · have h20 : ¬ (i - 12 < 20) := by omega
      simp [h12, hi, h32, h20]
  · simp [h12]

theorem mask_aligned (x : Nat) : (x &&& PAGE_FRAME) % PAGE_SIZE = 0 := by
  rw [and_pageframe]
  simp [Nat.mul_mod_left]

theorem and_pageframe_of_lt (x : Nat) (h : x < U32) :
    x &&& PAGE_FRAME = x / PAGE_SIZE * PAGE_SIZE := by
  rw [and_pageframe, Nat.mod_eq_of_lt h]

theorem or_low_eq_add (f g : Nat) (hf : f % 4096 = 0) (hg : g < 4096) :
    f ||| g = f + g := by
  have hf2 : f = 2 ^ 12 * (f / 2 ^ 12) := by omega
  rw [hf2]
  exact (Nat.mul_add_lt_is_or (by norm_num [hg] : g < 2 ^ 12) (f / 2 ^ 12)).symm

theorem and_two_pow_eq (x k : Nat) :
    x &&& 2 ^ k = if x.testBit k then 2 ^ k else 0 := by
  apply Nat.eq_of_testBit_eq
  intro i
  by_cases hx : x.testBit k
  · simp only [hx, if_true, Nat.testBit_and, Nat.testBit_two_pow]
    by_cases hk : k = i
    · subst hk; simp [hx]
    · simp [hk]
  · simp only [Bool.not_eq_true] at hx
    simp only [hx, if_false, Nat.testBit_and, Nat.testBit_two_pow, Nat.zero_testBit]
    by_cases hk : k = i
    · subst hk; simp [hx]
    · simp [hk]

theorem and_two_pow_ne_zero (x k : Nat) :
    x &&& 2 ^ k ≠ 0 ↔ x.testBit k = true := by
  rw [and_two_pow_eq]
  by_cases hx : x.testBit k <;> simp [hx]

theorem valid_two_pow : TLBLO_VALID = 2 ^ 9 := by decide

theorem dirty_two_pow : TLBLO_DIRTY = 2 ^ 10 := by decide

theorem and_valid_ne_zero (x : Nat) :
    x &&& TLBLO_VALID ≠ 0 ↔ x.testBit 9 = true := by
  rw [valid_two_pow]; exact and_two_pow_ne_zero x 9

theorem and_dirty_ne_zero (x : Nat) :
    x &&& TLBLO_DIRTY ≠ 0 ↔ x.testBit 10 = true := by
  rw [dirty_two_pow]; exact and_two_pow_ne_zero x 10

theorem ne_zero_of_valid (x : Nat) (h : x &&& TLBLO_VALID ≠ 0) : x ≠ 0 := by
  intro h0; subst h0; simp at h

theorem or_valid_has_valid (x : Nat) : (x ||| TLBLO_VALID) &&& TLBLO_VALID ≠ 0 := by
  rw [and_valid_ne_zero]
  simp [Nat.testBit_or, show TLBLO_VALID.testBit 9 = true by decide]

theorem or_dirty_keeps_valid (x : Nat) :
    (x ||| TLBLO_DIRTY) &&& TLBLO_VALID ≠ 0 ↔ x &&& TLBLO_VALID ≠ 0 := by
  rw [and_valid_ne_zero, and_valid_ne_zero]
  simp [Nat.testBit_or, show TLBLO_DIRTY.testBit 9 = false by decide]

theorem xor_dirty_keeps_valid (x : Nat) :
    (x ^^^ TLBLO_DIRTY) &&& TLBLO_VALID ≠ 0 ↔ x &&& TLBLO_VALID ≠ 0 := by
  rw [and_valid_ne_zero, and_valid_ne_zero]
  simp [Nat.testBit_xor, show TLBLO_DIRTY.testBit 9 = false by decide]

/-! ## Page-table store: insert/lookup lemmas -/

theorem lookup_insert_self (pt : PT) (v e : Nat) :
    pagetable_lookup (pagetable_insert pt v e) v = e := by
  unfold pagetable_insert pagetable_lookup
  cases h : pt (indexT1 v) <;> simp [h]

theorem find_region_eq_none (rs : List Region) (v : Nat)
    (hwf : ∀ r ∈ rs, r.reg_vbase + r.reg_npages * PAGE_SIZE < U32)
    (h : ∀ r ∈ rs, ¬(r.reg_vbase ≤ v ∧ v < r.reg_vbase + r.reg_npages * PAGE_SIZE)) :
    find_region rs v = none := by
  induction rs with
  | nil => rfl
  | cons r rs ih =>
    have hr := h r (by simp)
    have hb := hwf r (by simp)
    have hc : region_contains r v = false := by
      rw [region_contains, Nat.mod_eq_of_lt hb]
      simp only [Bool.and_eq_false_iff, decide_eq_false_iff_not]
      by_cases h1 : r.reg_vbase ≤ v
      · right; intro h2; exact hr ⟨h1, h2⟩
      · left; exact h1
    rw [find_region, hc]
    simp only [Bool.false_eq_true, if_false]
    exact ih (fun r hr2 => hwf r (by simp [hr2])) (fun r hr2 => h r (by simp [hr2]))

/-- C5: after `pagetable_insert(pt, vaddr, entry)`, looking up `vaddr`
returns exactly `entry`; and when the level-2 table or the PTE is
absent, `pagetable_lookup` returns 0.  The lookup is a pure function of
the table in this embedding (as in the C code, which only writes
through its out-parameter), so it allocates and modifies nothing. -/
theorem pagetable_insert_lookup_roundtrip (pt : PT) (vaddr entry : Nat)
    (_hv : vaddr < MIPS_KSEG0) :
    pagetable_lookup (pagetable_insert pt vaddr entry) vaddr = entry ∧
    (pt (indexT1 vaddr) = none → pagetable_lookup pt vaddr = 0) ∧
    (∀ t2, pt (indexT1 vaddr) = some t2 → t2 (indexT2 vaddr) = 0 →
      pagetable_lookup pt vaddr = 0) := by
  refine ⟨lookup_insert_self pt vaddr entry, ?_, ?_⟩
  · intro h
    unfold pagetable_lookup
    rw [h]
  · intro t2 h h0
    unfold pagetable_lookup
    rw [h]
    exact h0

/-- Witness for C5 at a concrete input. -/
theorem pagetable_insert_lookup_roundtrip_witness :
    (0x400000 : Nat) < MIPS_KSEG0 ∧
    pagetable_lookup (pagetable_insert emptyPT 0x400000 0x2600) 0x400000 = 0x2600 :=
  ⟨by decide, (pagetable_insert_lookup_roundtrip emptyPT 0x400000 0x2600 (by decide)).1⟩

/-- C3: `vm_fault(READONLY, _)` returns `EFAULT` whatever the
address-space state; any fault kind outside {READONLY, READ, WRITE}
returns `EINVAL`, again whatever the state (both checks precede the
page-table lookup and region scan, so the address space passes through
untouched); and for the valid kinds READ/WRITE the handler returns
`EFAULT` when there is no current process or no active address
space. -/
theorem vm_fault_kind_dispatch (hasProc : Bool) (as? : Option Addrspace)
    (alloc : Nat) (mem : Mem) (faulttype faultaddress : Nat) :
    ((vm_fault hasProc as? alloc mem VM_FAULT_READONLY faultaddress).code = EFAULT ∧
     (vm_fault hasProc as? alloc mem VM_FAULT_READONLY faultaddress).as = as?) ∧
    (faulttype ≠ VM_FAULT_READONLY → faulttype ≠ VM_FAULT_READ →
     faulttype ≠ VM_FAULT_WRITE →
      (vm_fault hasProc as? alloc mem faulttype faultaddress).code = EINVAL ∧
      (vm_fault hasProc as? alloc mem faulttype faultaddress).as = as?) ∧
    ((faulttype = VM_FAULT_READ ∨ faulttype = VM_FAULT_WRITE) →
      (vm_fault false as? alloc mem faulttype faultaddress).code = EFAULT) ∧
    ((faulttype = VM_FAULT_READ ∨ faulttype = VM_FAULT_WRITE) →
      (vm_fault true none alloc mem faulttype faultaddress).code = EFAULT) := by
  refine ⟨by simp [vm_fault], ?_, ?_, ?_⟩
  · intro h1 h2 h3
    simp [vm_fault, h1, h2, h3]
  · rintro (h | h) <;> subst h <;> simp [vm_fault, VM_FAULT_READ, VM_FAULT_WRITE,
      VM_FAULT_READONLY, EFAULT]
  · rintro (h | h) <;> subst h <;> simp [vm_fault, VM_FAULT_READ, VM_FAULT_WRITE,
      VM_FAULT_READONLY, EFAULT]

/-- Witness for C3 at concrete inputs: kind 7 (not a fault kind) gives
`EINVAL`; `READ` with no process, and `READ` with no address space,
give `EFAULT`. -/
theorem vm_fault_kind_dispatch_witness :
    (vm_fault true (some as1) 0 memAA 7 0).code = EINVAL ∧
    (vm_fault false (some as1) 0 memAA VM_FAULT_READ 0).code = EFAULT ∧
    (vm_fault true none 0 memAA VM_FAULT_READ 0).code = EFAULT :=
  ⟨((vm_fault_kind_dispatch true (some as1) 0 memAA 7 0).2.1
      (by decide) (by decide) (by decide)).1,
   (vm_fault_kind_dispatch false (some as1) 0 memAA VM_FAULT_READ 0).2.2.1
      (Or.inl rfl),
   (vm_fault_kind_dispatch true none 0 memAA VM_FAULT_READ 0).2.2.2
      (Or.inl rfl)⟩

/-- C7: a READ/WRITE fault at an address with no page-table entry and
inside no region returns `EFAULT` and leaves the address space (and in
particular its page table) unchanged. -/
theorem vm_fault_no_region_efault (as : Addrspace) (alloc : Nat) (mem : Mem)
    (faulttype faultaddress : Nat)
    (hk : faulttype = VM_FAULT_READ ∨ faulttype = VM_FAULT_WRITE)
    (hwf : ∀ r ∈ as.regions, r.reg_vbase + r.reg_npages * PAGE_SIZE < U32)
    (hmiss : pagetable_lookup as.pagetable faultaddress = 0)
    (hreg : ∀ r ∈ as.regions,
      ¬(r.reg_vbase ≤ faultaddress ∧
        faultaddress < r.reg_vbase + r.reg_npages * PAGE_SIZE)) :
    (vm_fault true (some as) alloc mem faulttype faultaddress).code = EFAULT ∧
    (vm_fault true (some as) alloc mem faulttype faultaddress).as = some as := by
  have hfind := find_region_eq_none as.regions faultaddress hwf hreg
  rcases hk with h | h <;> subst h <;>
    simp [vm_fault, VM_FAULT_READ, VM_FAULT_WRITE, VM_FAULT_READONLY, hmiss, hfind]

/-- Witness for C7: `as1` defines only `[0x00400000, 0x00401000)`, and a
READ fault at `0x00500000` on an empty page table yields `EFAULT`. -/
theorem vm_fault_no_region_efault_witness :
    (vm_fault true (some as1) 0x2000 memAA VM_FAULT_READ 0x500000).code = EFAULT ∧
    (vm_fault true (some as1) 0x2000 memAA VM_FAULT_READ 0x500000).as = some as1 :=
  vm_fault_no_region_efault as1 0x2000 memAA VM_FAULT_READ 0x500000
    (Or.inl rfl) (by decide) (by decide) (by decide)

/-- C1 (code evaluation): `pt1` holds the single non-zero PTE
`TLBLO_VALID` (DIRTY clear) at `0x00400000`; running
`pagetable_update` over exactly that one page *sets* DIRTY (the source
XOR-toggles), leaving the entry `TLBLO_VALID | TLBLO_DIRTY` — the
update is not the one-directional clear the specification mandates. -/
theorem pagetable_update_sets_dirty_eval :
    pagetable_lookup (pagetable_update pt1 0x400000 1) 0x400000 =
      (TLBLO_VALID ||| TLBLO_DIRTY) ∧
    pagetable_lookup (pagetable_update pt1 0x400000 1) 0x400000 &&& TLBLO_DIRTY ≠ 0 ∧
    pagetable_lookup pt1 0x400000 &&& TLBLO_DIRTY = 0 := by
  refine ⟨by decide, by decide, by decide⟩

/-- C2 (code evaluation): on the allocation path (`as1`, empty page
table, READ fault at `0x00400000`, allocator returns frame `0x2000`,
memory previously all `0xAA`), `vm_fault` returns 0 and installs the
PTE for frame `0x2000`, yet the frame's bytes still read `0xAA`: the
zero-fill is absent (the `bzero` call is commented out in the
source). -/
theorem vm_fault_no_zero_fill_eval :
    (vm_fault true (some as1) 0x2000 memAA VM_FAULT_READ 0x400000).code = 0 ∧
    pagetable_lookup
      (vm_fault_as true as1 0x2000 memAA VM_FAULT_READ 0x400000).pagetable
      0x400000 &&& PAGE_FRAME = 0x2000 ∧
    (vm_fault true (some as1) 0x2000 memAA VM_FAULT_READ 0x400000).mem 0x2000 = 0xAA := by
  refine ⟨by decide, by decide, by decide⟩

/-- C6 (code evaluation): same allocation path but the frame allocator
fails (`alloc_upages` returns 0).  `vm_fault` does not return `ENOMEM`:
it returns 0 and installs the PTE `0 | TLBLO_VALID | TLBLO_DIRTY` for
frame 0 (both `KASSERT`s in the source hold for 0, and
`pagetable_insert` returns `void`, so no failure is ever observed and
no frame is ever released). -/
theorem vm_fault_ignores_alloc_failure_eval :
    (vm_fault true (some as1) 0 memAA VM_FAULT_READ 0x400000).code = 0 ∧
    (vm_fault true (some as1) 0 memAA VM_FAULT_READ 0x400000).code ≠ ENOMEM ∧
    pagetable_lookup
      (vm_fault_as true as1 0 memAA VM_FAULT_READ 0x400000).pagetable 0x400000 =
      (TLBLO_VALID ||| TLBLO_DIRTY) := by
  refine ⟨by decide, by decide, by decide⟩

/-! ## Region definition (C10) -/

/-- C10: `as_define_region` rejects an all-zero permission set with
`EINVAL` and otherwise (allocation of the record succeeding, as
modelled) appends exactly one region at the list tail, with base
`vaddr` rounded down to a page boundary, a page count covering
`[vaddr, vaddr + memsize)` rounded out to page boundaries, permission
word `r|w|x`, and the page table untouched. -/
theorem as_define_region_spec (as : Addrspace) (vaddr memsize r w x : Nat)
    (hv : vaddr < U32) (hsum : vaddr + memsize ≤ MIPS_KSEG0) :
    (r ||| w ||| x = 0 → as_define_region as vaddr memsize r w x = (EINVAL, as)) ∧
    (r ||| w ||| x ≠ 0 →
      (as_define_region as vaddr memsize r w x).1 = 0 ∧
      ∃ nr : Region,
        (as_define_region as vaddr memsize r w x).2.regions = as.regions ++ [nr] ∧
        (as_define_region as vaddr memsize r w x).2.pagetable = as.pagetable ∧
        nr.reg_vbase = vaddr / PAGE_SIZE * PAGE_SIZE ∧
        nr.reg_vbase + nr.reg_npages * PAGE_SIZE =
          (vaddr + memsize + PAGE_SIZE - 1) / PAGE_SIZE * PAGE_SIZE ∧
        nr.permissions = (r ||| w ||| x)) := by
  have hU : U32 = 4294967296 := by norm_num [U32]
  have hK : MIPS_KSEG0 = 2147483648 := by norm_num [MIPS_KSEG0]
  have hvr := Nat.mod_lt vaddr (show 0 < 4096 by norm_num)
  constructor
  · intro h
    simp [as_define_region, h]
  · intro h
    have hoff : vaddr &&& (0xffffffff ^^^ PAGE_FRAME) = vaddr % 4096 := by
      have hc : (0xffffffff ^^^ PAGE_FRAME) = 4095 := by decide
      rw [hc, and_4095]
    have hm1 : (memsize + vaddr % 4096) % U32 = memsize + vaddr % 4096 :=
      Nat.mod_eq_of_lt (by omega)
    have hm2 : (memsize + vaddr % 4096 + PAGE_SIZE - 1) % U32 =
        memsize + vaddr % 4096 + PAGE_SIZE - 1 :=
      Nat.mod_eq_of_lt (by simp only [PAGE_SIZE]; omega)
    have hS : memsize + vaddr % 4096 + PAGE_SIZE - 1 < U32 := by
      simp only [PAGE_SIZE]; omega
    have heq : as_define_region as vaddr memsize r w x =
        (0, ⟨as.regions ++
          [⟨vaddr &&& PAGE_FRAME,
            ((memsize + vaddr % 4096 + PAGE_SIZE - 1) &&& PAGE_FRAME) / PAGE_SIZE,
            r ||| w ||| x⟩],
          as.pagetable⟩) := by
      simp [as_define_region, h, hoff, hm1, hm2]
    refine ⟨by rw [heq], ⟨_, by rw [heq], by rw [heq],
      and_pageframe_of_lt vaddr hv, ?_, rfl⟩⟩
    rw [and_pageframe_of_lt _ hS, and_pageframe_of_lt vaddr hv]
    have h4 : (memsize + vaddr % 4096 + PAGE_SIZE - 1) / PAGE_SIZE * PAGE_SIZE /
        PAGE_SIZE = (memsize + vaddr % 4096 + PAGE_SIZE - 1) / PAGE_SIZE :=
      Nat.mul_div_cancel _ (by norm_num [PAGE_SIZE])
    rw [h4]
    simp only [PAGE_SIZE]
    omega

/-- Witness for C10: defining `[0x400123, 0x400123 + 8192)` with {R,W}
succeeds; the all-zero permission case returns `EINVAL`. -/
theorem as_define_region_spec_witness :
    ((0x400123 : Nat) < U32 ∧ (0x400123 : Nat) + 8192 ≤ MIPS_KSEG0) ∧
    as_define_region as_create 0x400123 8192 0 0 0 = (EINVAL, as_create) ∧
    (as_define_region as_create 0x400123 8192 RF_R RF_W 0).1 = 0 :=
  ⟨⟨by decide, by decide⟩,
   (as_define_region_spec as_create 0x400123 8192 0 0 0 (by decide) (by decide)).1
     (by decide),
   ((as_define_region_spec as_create 0x400123 8192 RF_R RF_W 0 (by decide)
       (by decide)).2 (by decide)).1⟩

/-! ## Loader hooks (C4) -/

theorem perm_roundtrip (p : Nat) (hp : p < 8) :
    (((p <<< 3 ||| RF_R ||| RF_W) % U32) >>> 3) &&& 0x7 = p := by
  have h1 : p <<< 3 = 2 ^ 3 * p := by
    rw [Nat.shiftLeft_eq]; ring
  have h2 : p <<< 3 ||| RF_R ||| RF_W = 8 * p + 6 := by
    rw [Nat.or_assoc, show RF_R ||| RF_W = 6 by decide, h1,
      ← Nat.mul_add_lt_is_or (show 6 < 2 ^ 3 by norm_num) p]
  rw [h2]
  have h3 : (8 * p + 6) % U32 = 8 * p + 6 := by
    apply Nat.mod_eq_of_lt
    have : U32 = 4294967296 := by norm_num [U32]
    omega
  rw [h3, Nat.shiftRight_eq_div_pow]
  have h4 : (8 * p + 6) / 2 ^ 3 = p := by omega
  rw [h4, show (0x7 : Nat) = 2 ^ 3 - 1 by norm_num, Nat.and_pow_two_sub_one_eq_mod]
  omega

theorem complete_go_prepare (rs : List Region) (pt : PT)
    (h : ∀ r ∈ rs, r.permissions < 8) :
    as_complete_load_go
      (rs.map (fun r =>
        { r with permissions := (r.permissions <<< 3 ||| RF_R ||| RF_W) % U32 })) pt =
    (rs, update_readonly_regions rs pt) := by
  induction rs generalizing pt with
  | nil => rfl
  | cons r rs ih =>
    have hp := h r (by simp)
    have hmem : ∀ r2 ∈ rs, r2.permissions < 8 := fun r2 hr2 => h r2 (by simp [hr2])
    have hrt := perm_roundtrip r.permissions hp
    simp only [List.map_cons, as_complete_load_go, hrt,
      update_readonly_regions, List.foldl_cons]
    rw [ih _ hmem]
    cases r
    rfl

/-- C4: for an address space whose regions carry 3-bit permission
words, `as_prepare_load` followed by `as_complete_load` restores every
region record exactly (`prepare` saves the flags shifted left 3 and
writes {R,W} into the low bits; `complete` shifts right 3 and masks to
3 bits), and the resulting page table is `pagetable_update` folded over
the page range of every region whose restored permissions lack W. -/
theorem prepare_complete_load_roundtrip (as : Addrspace)
    (h : ∀ r ∈ as.regions, r.permissions < 8) :
    (as_complete_load (as_prepare_load as)).regions = as.regions ∧
    (as_complete_load (as_prepare_load as)).pagetable =
      update_readonly_regions as.regions as.pagetable := by
  have hgo := complete_go_prepare as.regions as.pagetable h
  constructor <;> simp [as_prepare_load, as_complete_load, hgo]

/-- Witness for C4 on the one-region {R,X} address space `as4`. -/
theorem prepare_complete_load_roundtrip_witness :
    (∀ r ∈ as4.regions, r.permissions < 8) ∧
    (as_complete_load (as_prepare_load as4)).regions = as4.regions :=
  ⟨by decide, (prepare_complete_load_roundtrip as4 (by decide)).1⟩

/-! ## The VALID invariant (C9) -/

theorem as_copy_tables_none (oldpt : PT) (alloc : Nat → Nat) (i : Nat)
    (is : List Nat) (acc : PT) (ctr : Nat) (mem : Mem) (ho : oldpt i = none) :
    as_copy_tables oldpt alloc (i :: is) acc ctr mem =
      as_copy_tables oldpt alloc is (fun a => if a = i then none else acc a) ctr mem := by
  rw [as_copy_tables, ho]

theorem as_copy_tables_some (oldpt : PT) (alloc : Nat → Nat) (i : Nat)
    (is : List Nat) (acc : PT) (ctr : Nat) (mem : Mem) (t2 : L2)
    (ho : oldpt i = some t2) :
    as_copy_tables oldpt alloc (i :: is) acc ctr mem =
      (if (as_copy_slots t2 alloc (List.range TABLE_SIZE) (fun _ => 0) ctr mem).code ≠ 0 then
        ⟨(as_copy_slots t2 alloc (List.range TABLE_SIZE) (fun _ => 0) ctr mem).code,
         fun a => if a = i then
                    some (as_copy_slots t2 alloc (List.range TABLE_SIZE) (fun _ => 0) ctr mem).table
                  else acc a,
         (as_copy_slots t2 alloc (List.range TABLE_SIZE) (fun _ => 0) ctr mem).ctr,
         (as_copy_slots t2 alloc (List.range TABLE_SIZE) (fun _ => 0) ctr mem).mem⟩
      else
        as_copy_tables oldpt alloc is
          (fun a => if a = i then
                      some (as_copy_slots t2 alloc (List.range TABLE_SIZE) (fun _ => 0) ctr mem).table
                    else acc a)
          (as_copy_slots t2 alloc (List.range TABLE_SIZE) (fun _ => 0) ctr mem).ctr
          (as_copy_slots t2 alloc (List.range TABLE_SIZE) (fun _ => 0) ctr mem).mem) := by
  rw [as_copy_tables, ho]

theorem insert_apply (pt : PT) (v e a : Nat) :
    pagetable_insert pt v e a =
      if a = indexT1 v then
        some (fun b => if b = indexT2 v then e
              else match pt (indexT1 v) with
                   | none => 0
                   | some t2 => t2 b)
      else pt a := by
  unfold pagetable_insert
  cases h : pt (indexT1 v) <;> rfl

theorem newPTE_valid (paddr pte : Nat) : newPTE paddr pte &&& TLBLO_VALID ≠ 0 := by
  unfold newPTE
  by_cases h : pte &&& TLBLO_DIRTY ≠ 0
  · rw [if_pos h]
    exact (or_dirty_keeps_valid _).mpr (or_valid_has_valid _)
  · rw [if_neg h]
    exact or_valid_has_valid _

theorem PTValid_insert (pt : PT) (v e : Nat) (hpt : PTValid pt)
    (he : e &&& TLBLO_VALID ≠ 0) : PTValid (pagetable_insert pt v e) := by
  intro i t2 j hi hj
  rw [insert_apply] at hi
  by_cases hii : i = indexT1 v
  · rw [if_pos hii] at hi
    obtain rfl := Option.some.inj hi
    by_cases hj2 : j = indexT2 v
    · simpa [hj2] using he
    · cases h : pt (indexT1 v) with
      | none => exact absurd (by simp [hj2, h]) hj
      | some t2old =>
        have h2 : t2old j ≠ 0 := by
          intro h0
          exact hj (by simp [hj2, h, h0])
        have h3 := hpt (indexT1 v) t2old j h h2
        simpa [hj2, h] using h3
  · rw [if_neg hii] at hi
    exact hpt i t2 j hi hj

theorem PTValid_update_go (vend fuel : Nat) :
    ∀ (pt : PT) (i : Nat), PTValid pt →
      PTValid (pagetable_update_go vend fuel pt i) := by
  induction fuel with
  | zero => intro pt i h; exact h
  | succ fuel ih =>
    intro pt i h
    rw [pagetable_update_go]
    by_cases hlt : i < vend
    · rw [if_pos hlt]
      cases hpt : pt (indexT1 i) with
      | none => exact ih pt _ h
      | some t2 =>
        apply ih
        by_cases he : t2 (indexT2 i) ≠ 0
        · rw [if_pos he]
          intro a t2a b ha hb
          replace ha : (if a = indexT1 i then
              some (fun b => if b = indexT2 i then
                               t2 (indexT2 i) ^^^ TLBLO_DIRTY
                             else t2 b)
            else pt a) = some t2a := ha
          by_cases hai : a = indexT1 i
          · rw [if_pos hai] at ha
            obtain rfl := Option.some.inj ha
            by_cases hbi : b = indexT2 i
            · simp only [hbi, if_pos rfl]
              exact (xor_dirty_keeps_valid _).mpr (h (indexT1 i) t2 (indexT2 i) hpt he)
            · have hb2 : t2 b ≠ 0 := by simpa [hbi] using hb
              have h3 := h (indexT1 i) t2 b hpt hb2
              simpa [hbi] using h3
          · rw [if_neg hai] at ha
            exact h a t2a b ha hb
        · rw [if_neg he]
          exact h
    · rw [if_neg hlt]
      exact h

theorem PTValid_update (pt : PT) (b n : Nat) (h : PTValid pt) :
    PTValid (pagetable_update pt b n) :=
  PTValid_update_go _ _ pt b h

theorem PTValid_complete_go (rs : List Region) :
    ∀ pt, PTValid pt → PTValid (as_complete_load_go rs pt).2 := by
  induction rs with
  | nil => intro pt h; exact h
  | cons r rs ih =>
    intro pt h
    show PTValid (as_complete_load_go rs _).2
    apply ih
    by_cases hw : ((r.permissions >>> 3) &&& 0x7) &&& RF_W = 0
    · rw [if_pos hw]
      exact PTValid_update _ _ _ h
    · rw [if_neg hw]
      exact h

theorem L2Valid_slots (t2 : L2) (alloc : Nat → Nat) (js : List Nat) :
    ∀ acc ctr mem, L2Valid acc →
      L2Valid (as_copy_slots t2 alloc js acc ctr mem).table := by
  induction js with
  | nil => intro acc ctr mem h; exact h
  | cons j js ih =>
    intro acc ctr mem h
    rw [as_copy_slots]
    by_cases hz : t2 j ≠ 0
    · rw [if_pos hz]
      by_cases hp : alloc ctr = 0
      · rw [if_pos hp]; exact h
      · rw [if_neg hp]
        apply ih
        intro b hb
        by_cases hbj : b = j
        · simpa [hbj] using newPTE_valid (alloc ctr) (t2 j)
        · have hb2 : acc b ≠ 0 := by simpa [hbj] using hb
          have h3 := h b hb2
          simpa [hbj] using h3
    · rw [if_neg hz]
      apply ih
      intro b hb
      by_cases hbj : b = j
      · exact absurd (by simp [hbj]) hb
      · have hb2 : acc b ≠ 0 := by simpa [hbj] using hb
        have h3 := h b hb2
        simpa [hbj] using h3

theorem PTValid_tables (oldpt : PT) (alloc : Nat → Nat) (is : List Nat) :
    ∀ acc ctr mem, PTValid acc →
      PTValid (as_copy_tables oldpt alloc is acc ctr mem).pt := by
  induction is with
  | nil => intro acc ctr mem h; exact h
  | cons i is ih =>
    intro acc ctr mem h
    cases ho : oldpt i with
    | none =>
      rw [as_copy_tables_none oldpt alloc i is acc ctr mem ho]
      apply ih
      intro a t2a j ha hj
      have ha2 : (if a = i then none else acc a) = some t2a := ha
      by_cases hai : a = i
      · rw [if_pos hai] at ha2
        exact absurd ha2 (by simp)
      · rw [if_neg hai] at ha2
        exact h a t2a j ha2 hj
    | some t2 =>
      rw [as_copy_tables_some oldpt alloc i is acc ctr mem t2 ho]
      have hr : L2Valid (as_copy_slots t2 alloc (List.range TABLE_SIZE)
          (fun _ => 0) ctr mem).table :=
        L2Valid_slots t2 alloc _ _ _ _ (fun b hb => absurd rfl hb)
      have hacc : PTValid (fun a =>
          if a = i then
            some (as_copy_slots t2 alloc (List.range TABLE_SIZE) (fun _ => 0) ctr mem).table
          else acc a) := by
        intro a t2a j ha hj
        have ha2 : (if a = i then
            some (as_copy_slots t2 alloc (List.range TABLE_SIZE) (fun _ => 0) ctr mem).table
          else acc a) = some t2a := ha
        by_cases hai : a = i
        · rw [if_pos hai] at ha2
          obtain rfl := Option.some.inj ha2
          exact hr j hj
        · rw [if_neg hai] at ha2
          exact h a t2a j ha2 hj
      by_cases hc : (as_copy_slots t2 alloc (List.range TABLE_SIZE)
          (fun _ => 0) ctr mem).code ≠ 0
      · rw [if_pos hc]
        exact hacc
      · rw [if_neg hc]
        exact ih _ _ _ hacc

theorem define_region_pagetable (as : Addrspace) (v m r w x : Nat) :
    (as_define_region as v m r w x).2.pagetable = as.pagetable := by
  unfold as_define_region
  split <;> rfl

theorem define_stack_pagetable (as : Addrspace) :
    (as_define_stack as).2.1.pagetable = as.pagetable :=
  define_region_pagetable as _ _ _ _ _

theorem copy_regions_pagetable (rs : List Region) :
    ∀ newas : Addrspace, (as_copy_regions rs newas).2.pagetable = newas.pagetable := by
  induction rs with
  | nil => intro newas; rfl
  | cons r rs ih =>
    intro newas
    rw [as_copy_regions]
    by_cases hc : (as_define_region newas r.reg_vbase ((r.reg_npages * PAGE_SIZE) % U32)
        (r.permissions &&& RF_R) (r.permissions &&& RF_W) (r.permissions &&& RF_X)).1 ≠ 0
    · rw [if_pos hc]
      exact define_region_pagetable _ _ _ _ _ _
    · rw [if_neg hc]
      rw [ih]
      exact define_region_pagetable _ _ _ _ _ _

set_option maxRecDepth 10000 in
theorem PTValid_copy (old : Addrspace) (alloc : Nat → Nat) (mem : Mem) :
    PTValid (as_copy old alloc mem).2.1.pagetable := by
  have hbase : PTValid (as_copy_regions old.regions as_create).2.pagetable := by
    rw [copy_regions_pagetable]
    intro i t2 j hi hj
    exact absurd hi (by simp [as_create, emptyPT])
  rw [as_copy]
  by_cases hc : (as_copy_regions old.regions as_create).1 ≠ 0
  · rw [if_pos hc]
    exact hbase
  · rw [if_neg hc]
    exact PTValid_tables _ _ _ _ _ _ hbase

theorem vm_fault_as_cases (hasProc : Bool) (as : Addrspace) (alloc : Nat)
    (mem : Mem) (k addr : Nat) :
    vm_fault_as hasProc as alloc mem k addr = as ∨
    ∃ e, e &&& TLBLO_VALID ≠ 0 ∧
      vm_fault_as hasProc as alloc mem k addr =
        ⟨as.regions, pagetable_insert as.pagetable addr e⟩ := by
  unfold vm_fault_as vm_fault
  by_cases h1 : k = VM_FAULT_READONLY
  · left; simp [h1]
  · by_cases h2 : k = VM_FAULT_READ ∨ k = VM_FAULT_WRITE
    · simp only [h1, if_false, h2, if_true]
      cases hasProc with
      | false => left; simp
      | true =>
        simp only [if_true]
        by_cases h3 : pagetable_lookup as.pagetable addr ≠ 0
        · left; simp [h3]
        · rw [if_neg h3]
          cases hf : find_region as.regions addr with
          | none => left; rfl
          | some reg =>
            right
            refine ⟨_, ?_, rfl⟩
            by_cases hw : reg.permissions &&& RF_W ≠ 0
            · rw [if_pos hw]
              exact (or_dirty_keeps_valid _).mpr (or_valid_has_valid _)
            · rw [if_neg hw]
              exact or_valid_has_valid _
    · left; simp [h1, h2]

theorem PTValid_vm_fault (hasProc : Bool) (as : Addrspace) (alloc : Nat)
    (mem : Mem) (k addr : Nat) (h : PTValid as.pagetable) :
    PTValid (vm_fault_as hasProc as alloc mem k addr).pagetable := by
  rcases vm_fault_as_cases hasProc as alloc mem k addr with heq | ⟨e, he, heq⟩
  · rw [heq]; exact h
  · rw [heq]; exact PTValid_insert _ _ _ h he

theorem reach_PTValid (as : Addrspace) (h : Reach as) : PTValid as.pagetable := by
  induction h with
  | create =>
    intro i t2 j hi hj
    exact absurd hi (by simp [as_create, emptyPT])
  | defineRegion as v m r w x hr ih =>
    rw [define_region_pagetable]; exact ih
  | defineStack as hr ih =>
    rw [define_stack_pagetable]; exact ih
  | prepareLoad as hr ih => exact ih
  | completeLoad as hr ih => exact PTValid_complete_go as.regions as.pagetable ih
  | copy old alloc mem hr hc ih => exact PTValid_copy old alloc mem
  | fault as p alloc mem k addr hr ih => exact PTValid_vm_fault p as alloc mem k addr ih

/-- C9: in every address space reachable from `as_create` through
`as_define_region`, `as_define_stack`, `as_prepare_load`,
`as_complete_load`, successful `as_copy`, and `vm_fault`, every virtual
address whose lookup yields a non-zero entry yields one with the VALID
bit set. -/
theorem reachable_lookup_valid (as : Addrspace) (h : Reach as) (v e : Nat)
    (hl : pagetable_lookup as.pagetable v = e) (hne : e ≠ 0) :
    e &&& TLBLO_VALID ≠ 0 := by
  have hv := reach_PTValid as h
  subst hl
  unfold pagetable_lookup at hne ⊢
  cases hpt : as.pagetable (indexT1 v) with
  | none =>
    rw [hpt] at hne
    exact absurd rfl hne
  | some t2 =>
    rw [hpt] at hne
    exact hv (indexT1 v) t2 (indexT2 v) hpt hne

/-- Witness for C9: the state reached by define-region then a served
READ fault has a non-zero, VALID PTE at the faulting page. -/
theorem reachable_lookup_valid_witness :
    pagetable_lookup as9f.pagetable 0x400000 &&& TLBLO_VALID ≠ 0 :=
  reachable_lookup_valid as9f
    (Reach.fault as9 true 0x2000 memAA VM_FAULT_READ 0x400000
      (Reach.defineRegion as_create 0x400000 PAGE_SIZE RF_R RF_W 0 Reach.create))
    0x400000 (pagetable_lookup as9f.pagetable 0x400000) rfl (by decide)

/-! ## Memory and frame-arithmetic lemmas for `as_copy` (C8) -/

theorem memmove_in (mem : Mem) (dst src n a : Nat) (h1 : dst ≤ a) (h2 : a < dst + n) :
    memmove mem dst src n a = mem (src + (a - dst)) := by
  unfold memmove
  rw [if_pos ⟨h1, h2⟩]

theorem memmove_out (mem : Mem) (dst src n a : Nat) (h : ¬(dst ≤ a ∧ a < dst + n)) :
    memmove mem dst src n a = mem a := by
  unfold memmove
  rw [if_neg h]

theorem pages_disjoint (p q a : Nat) (hp : p % PAGE_SIZE = 0) (hq : q % PAGE_SIZE = 0)
    (hne : p ≠ q) (ha : p ≤ a) (ha2 : a < p + PAGE_SIZE) :
    ¬(q ≤ a ∧ a < q + PAGE_SIZE) := by
  simp only [PAGE_SIZE] at *
  omega

theorem aligned_testBit_low (f k : Nat) (hf : f % PAGE_SIZE = 0) (hk : k < 12) :
    f.testBit k = false := by
  rw [Nat.testBit_to_div_mod]
  simp only [decide_eq_false_iff_not, PAGE_SIZE] at *
  interval_cases k <;> omega

theorem KVADDR_eq (kv : Nat) (h1 : MIPS_KSEG0 ≤ kv) (h2 : kv < U32) :
    KVADDR_TO_PADDR kv = kv - MIPS_KSEG0 := by
  unfold KVADDR_TO_PADDR
  simp only [MIPS_KSEG0, U32] at *
  omega

theorem PADDR_eq (p : Nat) (h : p < MIPS_KSEG0) :
    PADDR_TO_KVADDR p = p + MIPS_KSEG0 := by
  unfold PADDR_TO_KVADDR
  simp only [MIPS_KSEG0, U32] at *
  omega

theorem srcAddr_eq (pte : Nat) (h : pte < MIPS_KSEG0) :
    srcAddr pte = (pte &&& PAGE_FRAME) + MIPS_KSEG0 := by
  have hU : pte + MIPS_KSEG0 < U32 := by simp only [MIPS_KSEG0, U32] at *; omega
  have h2 : pte < U32 := by simp only [MIPS_KSEG0, U32] at *; omega
  unfold srcAddr
  rw [PADDR_eq pte h, and_pageframe_of_lt _ hU, and_pageframe_of_lt _ h2]
  simp only [MIPS_KSEG0, PAGE_SIZE]
  omega

theorem srcAddr_aligned (pte : Nat) : srcAddr pte % PAGE_SIZE = 0 :=
  mask_aligned _

theorem newPTE_eq_add (kv pte : Nat) (hal : kv % PAGE_SIZE = 0)
    (h1 : MIPS_KSEG0 ≤ kv) (h2 : kv < U32) :
    newPTE kv pte = (kv - MIPS_KSEG0) +
      (if pte &&& TLBLO_DIRTY ≠ 0 then TLBLO_VALID + TLBLO_DIRTY else TLBLO_VALID) := by
  unfold newPTE
  rw [KVADDR_eq kv h1 h2]
  have hfal : (kv - MIPS_KSEG0) % 4096 = 0 := by
    simp only [MIPS_KSEG0, PAGE_SIZE] at *
    omega
  by_cases hd : pte &&& TLBLO_DIRTY ≠ 0
  · rw [if_pos hd, if_pos hd, Nat.or_assoc,
      show TLBLO_VALID ||| TLBLO_DIRTY = TLBLO_VALID + TLBLO_DIRTY by decide,
      or_low_eq_add _ _ hfal (by norm_num [TLBLO_VALID, TLBLO_DIRTY])]
  · rw [if_neg hd, if_neg hd, or_low_eq_add _ _ hfal (by norm_num [TLBLO_VALID])]

theorem newPTE_frame (kv pte : Nat) (hal : kv % PAGE_SIZE = 0)
    (h1 : MIPS_KSEG0 ≤ kv) (h2 : kv < U32) :
    newPTE kv pte &&& PAGE_FRAME = kv - MIPS_KSEG0 := by
  have hite : (if pte &&& TLBLO_DIRTY ≠ 0 then TLBLO_VALID + TLBLO_DIRTY
      else TLBLO_VALID) ≤ 1536 := by
    split <;> norm_num [TLBLO_VALID, TLBLO_DIRTY]
  have hfal : (kv - MIPS_KSEG0) % PAGE_SIZE = 0 := by
    simp only [MIPS_KSEG0, PAGE_SIZE] at hal ⊢
    omega
  have hlt : (kv - MIPS_KSEG0) +
      (if pte &&& TLBLO_DIRTY ≠ 0 then TLBLO_VALID + TLBLO_DIRTY else TLBLO_VALID) <
      U32 := by
    simp only [MIPS_KSEG0, U32] at h2 ⊢
    omega
  rw [newPTE_eq_add kv pte hal h1 h2, and_pageframe_of_lt _ hlt]
  simp only [PAGE_SIZE] at hfal hite ⊢
  omega

theorem and_valid_ite (x : Nat) :
    x &&& TLBLO_VALID = if x.testBit 9 then TLBLO_VALID else 0 := by
  rw [valid_two_pow]
  exact and_two_pow_eq x 9

theorem and_dirty_ite (x : Nat) :
    x &&& TLBLO_DIRTY = if x.testBit 10 then TLBLO_DIRTY else 0 := by
  rw [dirty_two_pow]
  exact and_two_pow_eq x 10

theorem valid_bits_eq (x : Nat) (h : x &&& TLBLO_VALID ≠ 0) :
    x &&& TLBLO_VALID = TLBLO_VALID := by
  have ht := (and_valid_ne_zero _).mp h
  rw [and_valid_ite, ht]
  simp

theorem dirty_bits_eq (x : Nat) (h : x &&& TLBLO_DIRTY ≠ 0) :
    x &&& TLBLO_DIRTY = TLBLO_DIRTY := by
  have ht := (and_dirty_ne_zero _).mp h
  rw [and_dirty_ite, ht]
  simp

theorem newPTE_valid_eq (kv pte : Nat) :
    newPTE kv pte &&& TLBLO_VALID = TLBLO_VALID :=
  valid_bits_eq _ (newPTE_valid kv pte)

theorem newPTE_dirty_eq (kv pte : Nat) (hal : kv % PAGE_SIZE = 0)
    (h1 : MIPS_KSEG0 ≤ kv) (h2 : kv < U32) :
    newPTE kv pte &&& TLBLO_DIRTY = pte &&& TLBLO_DIRTY := by
  have hfal : (kv - MIPS_KSEG0) % PAGE_SIZE = 0 := by
    simp only [MIPS_KSEG0, PAGE_SIZE] at hal ⊢
    omega
  have hbit : (kv - MIPS_KSEG0).testBit 10 = false :=
    aligned_testBit_low _ 10 hfal (by norm_num)
  rw [newPTE_eq_add kv pte hal h1 h2]
  by_cases hd : pte &&& TLBLO_DIRTY ≠ 0
  · have key : ((kv - MIPS_KSEG0) ||| (TLBLO_VALID + TLBLO_DIRTY)) &&& TLBLO_DIRTY =
        TLBLO_DIRTY := by
      have ht : ((kv - MIPS_KSEG0) ||| (TLBLO_VALID + TLBLO_DIRTY)).testBit 10 = true := by
        rw [Nat.testBit_or, hbit]
        simp [show Nat.testBit (TLBLO_VALID + TLBLO_DIRTY) 10 = true by decide]
      rw [and_dirty_ite, ht]
      simp
    rw [if_pos hd, dirty_bits_eq pte hd,
      ← or_low_eq_add _ (TLBLO_VALID + TLBLO_DIRTY) hfal
        (by norm_num [TLBLO_VALID, TLBLO_DIRTY]), key]
  · have key : ((kv - MIPS_KSEG0) ||| TLBLO_VALID) &&& TLBLO_DIRTY = 0 := by
      have ht : ((kv - MIPS_KSEG0) ||| TLBLO_VALID).testBit 10 = false := by
        rw [Nat.testBit_or, hbit]
        simp [show Nat.testBit TLBLO_VALID 10 = false by decide]
      rw [and_dirty_ite, ht]
      simp
    rw [if_neg hd, not_not.mp hd,
      ← or_low_eq_add _ TLBLO_VALID hfal (by norm_num [TLBLO_VALID]), key]

/-! ## Counting lemmas -/

theorem countRange_zero (t2 : L2) (j : Nat) : countRange t2 j 0 = 0 := rfl

theorem countRange_succ (t2 : L2) (j n : Nat) :
    countRange t2 j (n + 1) =
      (if t2 j ≠ 0 then 1 else 0) + countRange t2 (j + 1) n := by
  unfold countRange
  rw [List.range'_succ, List.countP_cons]
  by_cases h : t2 j ≠ 0 <;> simp [h, Nat.add_comm]

theorem countRange_head (t2 : L2) (j b : Nat) (hb : j < b) :
    countRange t2 j (b - j) =
      (if t2 j ≠ 0 then 1 else 0) + countRange t2 (j + 1) (b - (j + 1)) := by
  have h : b - j = (b - (j + 1)) + 1 := by omega
  rw [h, countRange_succ]

theorem countNZ_eq (t2 : L2) (n : Nat) : countNZ t2 n = countRange t2 0 n := by
  unfold countNZ countRange
  rw [List.range_eq_range']

theorem preCount_eq (pt : PT) (n : Nat) : preCount pt n = preCountRange pt 0 n := by
  unfold preCount preCountRange
  rw [List.range_eq_range']

theorem preCountRange_succ (pt : PT) (i n : Nat) :
    preCountRange pt i (n + 1) =
      (match pt i with
       | none => 0
       | some t2 => countNZ t2 TABLE_SIZE) + preCountRange pt (i + 1) n := by
  unfold preCountRange
  rw [List.range'_succ]
  simp

theorem preCountRange_head (pt : PT) (i a : Nat) (ha : i < a) :
    preCountRange pt i (a - i) =
      (match pt i with
       | none => 0
       | some t2 => countNZ t2 TABLE_SIZE) + preCountRange pt (i + 1) (a - (i + 1)) := by
  have h : a - i = (a - (i + 1)) + 1 := by omega
  rw [h, preCountRange_succ]

theorem preCountRange_succ_some (pt : PT) (i n : Nat) (t2 : L2) (ho : pt i = some t2) :
    preCountRange pt i (n + 1) =
      countRange t2 0 TABLE_SIZE + preCountRange pt (i + 1) n := by
  rw [preCountRange_succ, ho]
  show countNZ t2 TABLE_SIZE + preCountRange pt (i + 1) n = _
  rw [countNZ_eq]

theorem preCountRange_head_some (pt : PT) (i a : Nat) (t2 : L2) (ha : i < a)
    (ho : pt i = some t2) :
    preCountRange pt i (a - i) =
      countRange t2 0 TABLE_SIZE + preCountRange pt (i + 1) (a - (i + 1)) := by
  rw [preCountRange_head pt i a ha, ho]
  show countNZ t2 TABLE_SIZE + preCountRange pt (i + 1) (a - (i + 1)) = _
  rw [countNZ_eq]

theorem preCountRange_head_none (pt : PT) (i a : Nat) (ha : i < a)
    (ho : pt i = none) :
    preCountRange pt i (a - i) = preCountRange pt (i + 1) (a - (i + 1)) := by
  rw [preCountRange_head pt i a ha, ho]
  show 0 + preCountRange pt (i + 1) (a - (i + 1)) = _
  omega

theorem preCountRange_succ_none (pt : PT) (i n : Nat) (ho : pt i = none) :
    preCountRange pt i (n + 1) = preCountRange pt (i + 1) n := by
  rw [preCountRange_succ, ho]
  show 0 + preCountRange pt (i + 1) n = _
  omega

theorem countRange_add (t2 : L2) (j x y : Nat) :
    countRange t2 j (y + x) = countRange t2 j x + countRange t2 (j + x) y := by
  unfold countRange
  rw [← List.range'_append_1, List.countP_append]

theorem preCountRange_add (pt : PT) (j x y : Nat) :
    preCountRange pt j (y + x) = preCountRange pt j x + preCountRange pt (j + x) y := by
  unfold preCountRange
  rw [← List.range'_append_1, List.map_append, List.sum_append]

theorem countRange_succ_pos (t2 : L2) (j n : Nat) (h : t2 j ≠ 0) :
    countRange t2 j (n + 1) = 1 + countRange t2 (j + 1) n := by
  rw [countRange_succ, if_pos h]

theorem countRange_succ_neg (t2 : L2) (j n : Nat) (h : ¬ t2 j ≠ 0) :
    countRange t2 j (n + 1) = countRange t2 (j + 1) n := by
  rw [countRange_succ, if_neg h]
  simp

theorem countRange_lt_of_nz (t2 : L2) (b n : Nat) (hb : b < n) (hz : t2 b ≠ 0) :
    countRange t2 0 b < countRange t2 0 n := by
  have h1 : n = (n - (b + 1)) + (b + 1) := by omega
  have h4 := countRange_add t2 0 (b + 1) (n - (b + 1))
  have h2 := countRange_add t2 0 b 1
  rw [Nat.zero_add] at h4 h2
  have h3 : countRange t2 b 1 = 1 := by
    have h5 := countRange_succ_pos t2 b 0 hz
    simpa [countRange_zero] using h5
  rw [h1, h4]
  have h6 : (1 : Nat) + b = b + 1 := by omega
  rw [h6] at h2
  omega

theorem countRange_head_pos (t2 : L2) (j b : Nat) (hb : j < b) (h : t2 j ≠ 0) :
    countRange t2 j (b - j) = 1 + countRange t2 (j + 1) (b - (j + 1)) := by
  rw [countRange_head t2 j b hb, if_pos h]

theorem countRange_head_neg (t2 : L2) (j b : Nat) (hb : j < b) (h : ¬ t2 j ≠ 0) :
    countRange t2 j (b - j) = countRange t2 (j + 1) (b - (j + 1)) := by
  rw [countRange_head t2 j b hb, if_neg h]
  simp

/-! ## Characterization of the inner copy loop (`as_copy_slots`) -/

theorem slots_char (t2 : L2) (alloc : Nat → Nat) :
    ∀ (n j ctr : Nat) (acc : L2) (mem : Mem),
      (∀ m, ctr ≤ m → m < ctr + countRange t2 j n → alloc m ≠ 0) →
      (as_copy_slots t2 alloc (List.range' j n) acc ctr mem).code = 0 ∧
      (as_copy_slots t2 alloc (List.range' j n) acc ctr mem).ctr =
        ctr + countRange t2 j n ∧
      (∀ b, (as_copy_slots t2 alloc (List.range' j n) acc ctr mem).table b =
        if j ≤ b ∧ b < j + n then
          (if t2 b ≠ 0 then newPTE (alloc (ctr + countRange t2 j (b - j))) (t2 b)
           else 0)
        else acc b) := by
  intro n
  induction n with
  | zero =>
    intro j ctr acc mem _
    refine ⟨rfl, rfl, ?_⟩
    intro b
    rw [if_neg (show ¬(j ≤ b ∧ b < j + 0) by omega)]
    rfl
  | succ n ih =>
    intro j ctr acc mem Hnz
    rw [List.range'_succ, as_copy_slots]
    by_cases hz : t2 j ≠ 0
    · have hcr := countRange_succ_pos t2 j n hz
      have hne : alloc ctr ≠ 0 := Hnz ctr (Nat.le_refl ctr) (by omega)
      rw [if_pos hz, if_neg hne]
      have Hnz2 : ∀ m, ctr + 1 ≤ m → m < ctr + 1 + countRange t2 (j + 1) n →
          alloc m ≠ 0 := by
        intro m h1 h2
        exact Hnz m (by omega) (by omega)
      obtain ⟨hc, hctr, htab⟩ := ih (j + 1) (ctr + 1)
        (fun b => if b = j then newPTE (alloc ctr) (t2 j) else acc b)
        (memmove mem (alloc ctr) (PADDR_TO_KVADDR (t2 j) &&& PAGE_FRAME) PAGE_SIZE)
        Hnz2
      refine ⟨hc, by rw [hctr]; omega, ?_⟩
      intro b
      rw [htab b]
      by_cases hb1 : j + 1 ≤ b ∧ b < j + 1 + n
      · rw [if_pos hb1, if_pos (show j ≤ b ∧ b < j + (n + 1) by omega)]
        have hidx : ctr + 1 + countRange t2 (j + 1) (b - (j + 1)) =
            ctr + countRange t2 j (b - j) := by
          rw [countRange_head_pos t2 j b (by omega) hz]
          omega
        rw [hidx]
      · rw [if_neg hb1]
        by_cases hbj : b = j
        · rw [if_pos hbj, hbj, if_pos (show j ≤ j ∧ j < j + (n + 1) by omega),
            if_pos hz]
          simp [Nat.sub_self, countRange_zero]
        · rw [if_neg hbj, if_neg (show ¬(j ≤ b ∧ b < j + (n + 1)) by omega)]
    · have hcr := countRange_succ_neg t2 j n hz
      rw [if_neg hz]
      have Hnz2 : ∀ m, ctr ≤ m → m < ctr + countRange t2 (j + 1) n →
          alloc m ≠ 0 := by
        intro m h1 h2
        exact Hnz m h1 (by omega)
      obtain ⟨hc, hctr, htab⟩ := ih (j + 1) ctr
        (fun b => if b = j then 0 else acc b) mem Hnz2
      refine ⟨hc, by rw [hctr]; omega, ?_⟩
      intro b
      rw [htab b]
      by_cases hb1 : j + 1 ≤ b ∧ b < j + 1 + n
      · rw [if_pos hb1, if_pos (show j ≤ b ∧ b < j + (n + 1) by omega)]
        have hidx : ctr + countRange t2 (j + 1) (b - (j + 1)) =
            ctr + countRange t2 j (b - j) := by
          rw [countRange_head_neg t2 j b (by omega) hz]
        rw [hidx]
      · rw [if_neg hb1]
        by_cases hbj : b = j
        · rw [if_pos hbj, hbj, if_pos (show j ≤ j ∧ j < j + (n + 1) by omega),
            if_neg hz]
        · rw [if_neg hbj, if_neg (show ¬(j ≤ b ∧ b < j + (n + 1)) by omega)]

theorem slots_mem_untouched (t2 : L2) (alloc : Nat → Nat) :
    ∀ (n j ctr : Nat) (acc : L2) (mem : Mem) (a : Nat),
      (∀ m, ctr ≤ m → m < ctr + countRange t2 j n →
        ¬(alloc m ≤ a ∧ a < alloc m + PAGE_SIZE)) →
      (as_copy_slots t2 alloc (List.range' j n) acc ctr mem).mem a = mem a := by
  intro n
  induction n with
  | zero => intro j ctr acc mem a _; rfl
  | succ n ih =>
    intro j ctr acc mem a Hout
    rw [List.range'_succ, as_copy_slots]
    by_cases hz : t2 j ≠ 0
    · have hcr := countRange_succ_pos t2 j n hz
      rw [if_pos hz]
      by_cases hp : alloc ctr = 0
      · rw [if_pos hp]
      · rw [if_neg hp]
        rw [ih (j + 1) (ctr + 1) _ _ a
          (fun m h1 h2 => Hout m (by omega) (by omega))]
        exact memmove_out _ _ _ _ _ (Hout ctr (Nat.le_refl ctr) (by omega))
    · have hcr := countRange_succ_neg t2 j n hz
      rw [if_neg hz]
      exact ih (j + 1) ctr _ mem a (fun m h1 h2 => Hout m h1 (by omega))

theorem slots_mem_copied (t2 : L2) (alloc : Nat → Nat) :
    ∀ (n j ctr : Nat) (acc : L2) (mem : Mem),
      (∀ m, ctr ≤ m → m < ctr + countRange t2 j n →
        alloc m % PAGE_SIZE = 0 ∧ alloc m ≠ 0) →
      (∀ m m', ctr ≤ m → m < ctr + countRange t2 j n → ctr ≤ m' →
        m' < ctr + countRange t2 j n → alloc m = alloc m' → m = m') →
      (∀ m, ctr ≤ m → m < ctr + countRange t2 j n →
        ∀ k, j ≤ k → k < j + n → t2 k ≠ 0 → alloc m ≠ srcAddr (t2 k)) →
      ∀ b, j ≤ b → b < j + n → t2 b ≠ 0 → ∀ off, off < PAGE_SIZE →
        (as_copy_slots t2 alloc (List.range' j n) acc ctr mem).mem
          (alloc (ctr + countRange t2 j (b - j)) + off) =
        mem (srcAddr (t2 b) + off) := by
  intro n
  induction n with
  | zero =>
    intro j ctr acc mem _ _ _ b hb1 hb2
    omega
  | succ n ih =>
    intro j ctr acc mem Hal Hinj Hsrc b hb1 hb2 hbz off hoff
    rw [List.range'_succ, as_copy_slots]
    by_cases hz : t2 j ≠ 0
    · have hcr := countRange_succ_pos t2 j n hz
      have hne : alloc ctr ≠ 0 := (Hal ctr (Nat.le_refl ctr) (by omega)).2
      rw [if_pos hz, if_neg hne]
      by_cases hbj : b = j
      · have hidx : ctr + countRange t2 j (b - j) = ctr := by
          rw [hbj]
          simp [Nat.sub_self, countRange_zero]
        rw [hidx]
        have hU : ∀ m, ctr + 1 ≤ m → m < ctr + 1 + countRange t2 (j + 1) n →
            ¬(alloc m ≤ alloc ctr + off ∧ alloc ctr + off < alloc m + PAGE_SIZE) := by
          intro m h1 h2
          have hmne : alloc ctr ≠ alloc m := by
            intro he
            have := Hinj ctr m (Nat.le_refl ctr) (by omega) (by omega) (by omega) he
            omega
          exact pages_disjoint (alloc ctr) (alloc m) (alloc ctr + off)
            (Hal ctr (Nat.le_refl ctr) (by omega)).1
            (Hal m (by omega) (by omega)).1 hmne (Nat.le_add_right _ _) (by omega)
        rw [slots_mem_untouched t2 alloc n (j + 1) (ctr + 1) _ _ (alloc ctr + off) hU]
        rw [memmove_in _ _ _ _ _ (Nat.le_add_right _ _) (by omega)]
        have harg : alloc ctr + off - alloc ctr = off := by omega
        rw [harg, hbj]
        rfl
      · have hidx : ctr + countRange t2 j (b - j) =
            (ctr + 1) + countRange t2 (j + 1) (b - (j + 1)) := by
          rw [countRange_head_pos t2 j b (by omega) hz]
          omega
        rw [hidx]
        rw [ih (j + 1) (ctr + 1) _ _
          (fun m h1 h2 => Hal m (by omega) (by omega))
          (fun m m' h1 h2 h3 h4 he => Hinj m m' (by omega) (by omega) (by omega)
            (by omega) he)
          (fun m h1 h2 k hk1 hk2 hkz =>
            Hsrc m (by omega) (by omega) k (by omega) (by omega) hkz)
          b (by omega) (by omega) hbz off hoff]
        exact memmove_out _ _ _ _ _
          (pages_disjoint (srcAddr (t2 b)) (alloc ctr) (srcAddr (t2 b) + off)
            (srcAddr_aligned _) (Hal ctr (Nat.le_refl ctr) (by omega)).1
            (Ne.symm (Hsrc ctr (Nat.le_refl ctr) (by omega) b (by omega)
              (by omega) hbz))
            (Nat.le_add_right _ _) (by omega))
    · have hcr := countRange_succ_neg t2 j n hz
      have hbj : b ≠ j := by
        intro he
        exact hz (he ▸ hbz)
      rw [if_neg hz]
      have hidx : ctr + countRange t2 j (b - j) =
          ctr + countRange t2 (j + 1) (b - (j + 1)) := by
        rw [countRange_head_neg t2 j b (by omega) hz]
      rw [hidx]
      exact ih (j + 1) ctr _ mem
        (fun m h1 h2 => Hal m h1 (by omega))
        (fun m m' h1 h2 h3 h4 he => Hinj m m' h1 (by omega) h3 (by omega) he)
        (fun m h1 h2 k hk1 hk2 hkz => Hsrc m h1 (by omega) k (by omega) (by omega) hkz)
        b (by omega) (by omega) hbz off hoff

/-! ## Characterization of the outer copy loop (`as_copy_tables`) -/

theorem tables_char (oldpt : PT) (alloc : Nat → Nat) :
    ∀ (n i ctr : Nat) (acc : PT) (mem : Mem),
      (∀ m, ctr ≤ m → m < ctr + preCountRange oldpt i n → alloc m ≠ 0) →
      (as_copy_tables oldpt alloc (List.range' i n) acc ctr mem).code = 0 ∧
      (as_copy_tables oldpt alloc (List.range' i n) acc ctr mem).ctr =
        ctr + preCountRange oldpt i n ∧
      (∀ a, (as_copy_tables oldpt alloc (List.range' i n) acc ctr mem).pt a =
        if i ≤ a ∧ a < i + n then
          (match oldpt a with
           | none => none
           | some t2 =>
               some (newT2 alloc t2 (ctr + preCountRange oldpt i (a - i))))
        else acc a) := by
  intro n
  induction n with
  | zero =>
    intro i ctr acc mem _
    refine ⟨rfl, rfl, ?_⟩
    intro a
    rw [if_neg (show ¬(i ≤ a ∧ a < i + 0) by omega)]
    rfl
  | succ n ih =>
    intro i ctr acc mem Hnz
    rw [List.range'_succ]
    cases ho : oldpt i with
    | none =>
      rw [as_copy_tables_none oldpt alloc i _ acc ctr mem ho]
      have hpcr : preCountRange oldpt i (n + 1) = preCountRange oldpt (i + 1) n := by
        rw [preCountRange_succ, ho]
        simp
      obtain ⟨hc, hctr, htab⟩ := ih (i + 1) ctr
        (fun a => if a = i then none else acc a) mem
        (fun m h1 h2 => Hnz m h1 (by omega))
      refine ⟨hc, by rw [hctr, hpcr], ?_⟩
      intro a
      rw [htab a]
      by_cases ha1 : i + 1 ≤ a ∧ a < i + 1 + n
      · rw [if_pos ha1, if_pos (show i ≤ a ∧ a < i + (n + 1) by omega)]
        have htr : preCountRange oldpt i (a - i) =
            preCountRange oldpt (i + 1) (a - (i + 1)) :=
          preCountRange_head_none oldpt i a (by omega) ho
        rw [htr]
      · rw [if_neg ha1]
        by_cases hai : a = i
        · rw [if_pos hai, hai, if_pos (show i ≤ i ∧ i < i + (n + 1) by omega), ho]
        · rw [if_neg hai, if_neg (show ¬(i ≤ a ∧ a < i + (n + 1)) by omega)]
    | some t2 =>
      rw [as_copy_tables_some oldpt alloc i _ acc ctr mem t2 ho]
      have hpcr : preCountRange oldpt i (n + 1) =
          countRange t2 0 TABLE_SIZE + preCountRange oldpt (i + 1) n :=
        preCountRange_succ_some oldpt i n t2 ho
      rw [List.range_eq_range']
      obtain ⟨hc0, hctr0, htab0⟩ := slots_char t2 alloc TABLE_SIZE 0 ctr
        (fun _ => 0) mem (fun m h1 h2 => Hnz m h1 (by omega))
      rw [if_neg (by simp [hc0])]
      rw [hctr0]
      obtain ⟨hc, hctr, htab⟩ := ih (i + 1) (ctr + countRange t2 0 TABLE_SIZE)
        (fun a => if a = i then
          some (as_copy_slots t2 alloc (List.range' 0 TABLE_SIZE) (fun _ => 0)
            ctr mem).table
          else acc a)
        (as_copy_slots t2 alloc (List.range' 0 TABLE_SIZE) (fun _ => 0) ctr mem).mem
        (fun m h1 h2 => Hnz m (by omega) (by omega))
      refine ⟨hc, by rw [hctr]; omega, ?_⟩
      intro a
      rw [htab a]
      by_cases ha1 : i + 1 ≤ a ∧ a < i + 1 + n
      · rw [if_pos ha1, if_pos (show i ≤ a ∧ a < i + (n + 1) by omega)]
        have htr : ctr + countRange t2 0 TABLE_SIZE +
            preCountRange oldpt (i + 1) (a - (i + 1)) =
            ctr + preCountRange oldpt i (a - i) := by
          rw [preCountRange_head_some oldpt i a t2 (by omega) ho]
          omega
        rw [htr]
      · rw [if_neg ha1]
        by_cases hai : a = i
        · rw [if_pos hai, hai, if_pos (show i ≤ i ∧ i < i + (n + 1) by omega), ho]
          have h00 : preCountRange oldpt i (i - i) = 0 := by
            rw [Nat.sub_self]
            rfl
          rw [h00]
          congr 1
          funext b
          rw [htab0 b]
          by_cases hb : b < TABLE_SIZE
          · rw [if_pos (show 0 ≤ b ∧ b < 0 + TABLE_SIZE by omega)]
            simp [newT2, hb]
          · rw [if_neg (show ¬(0 ≤ b ∧ b < 0 + TABLE_SIZE) by omega)]
            simp [newT2, hb]
        · rw [if_neg hai, if_neg (show ¬(i ≤ a ∧ a < i + (n + 1)) by omega)]

theorem tables_mem_untouched (oldpt : PT) (alloc : Nat → Nat) :
    ∀ (n i ctr : Nat) (acc : PT) (mem : Mem) (a : Nat),
      (∀ m, ctr ≤ m → m < ctr + preCountRange oldpt i n → alloc m ≠ 0) →
      (∀ m, ctr ≤ m → m < ctr + preCountRange oldpt i n →
        ¬(alloc m ≤ a ∧ a < alloc m + PAGE_SIZE)) →
      (as_copy_tables oldpt alloc (List.range' i n) acc ctr mem).mem a = mem a := by
  intro n
  induction n with
  | zero => intro i ctr acc mem a _ _; rfl
  | succ n ih =>
    intro i ctr acc mem a Hnz Hout
    rw [List.range'_succ]
    cases ho : oldpt i with
    | none =>
      rw [as_copy_tables_none oldpt alloc i _ acc ctr mem ho]
      have hpcr := preCountRange_succ_none oldpt i n ho
      exact ih (i + 1) ctr _ mem a
        (fun m h1 h2 => Hnz m h1 (by omega))
        (fun m h1 h2 => Hout m h1 (by omega))
    | some t2 =>
      rw [as_copy_tables_some oldpt alloc i _ acc ctr mem t2 ho, List.range_eq_range']
      have hpcr := preCountRange_succ_some oldpt i n t2 ho
      obtain ⟨hc0, hctr0, _⟩ := slots_char t2 alloc TABLE_SIZE 0 ctr (fun _ => 0) mem
        (fun m h1 h2 => Hnz m h1 (by omega))
      rw [if_neg (by simp [hc0]), hctr0]
      rw [ih (i + 1) (ctr + countRange t2 0 TABLE_SIZE) _ _ a
        (fun m h1 h2 => Hnz m (by omega) (by omega))
        (fun m h1 h2 => Hout m (by omega) (by omega))]
      exact slots_mem_untouched t2 alloc TABLE_SIZE 0 ctr (fun _ => 0) mem a
        (fun m h1 h2 => Hout m h1 (by omega))

theorem tables_mem_copied (oldpt : PT) (alloc : Nat → Nat) :
    ∀ (n i ctr : Nat) (acc : PT) (mem : Mem),
      (∀ m, ctr ≤ m → m < ctr + preCountRange oldpt i n →
        alloc m % PAGE_SIZE = 0 ∧ alloc m ≠ 0) →
      (∀ m m', ctr ≤ m → m < ctr + preCountRange oldpt i n → ctr ≤ m' →
        m' < ctr + preCountRange oldpt i n → alloc m = alloc m' → m = m') →
      (∀ m, ctr ≤ m → m < ctr + preCountRange oldpt i n →
        ∀ a2, i ≤ a2 → a2 < i + n → ∀ t2, oldpt a2 = some t2 →
          ∀ k, k < TABLE_SIZE → t2 k ≠ 0 → alloc m ≠ srcAddr (t2 k)) →
      ∀ a, i ≤ a → a < i + n → ∀ t2, oldpt a = some t2 →
        ∀ b, b < TABLE_SIZE → t2 b ≠ 0 → ∀ off, off < PAGE_SIZE →
        (as_copy_tables oldpt alloc (List.range' i n) acc ctr mem).mem
          (alloc (ctr + preCountRange oldpt i (a - i) + countRange t2 0 b) + off) =
        mem (srcAddr (t2 b) + off) := by
  intro n
  induction n with
  | zero =>
    intro i ctr acc mem _ _ _ a ha1 ha2
    omega
  | succ n ih =>
    intro i ctr acc mem Hal Hinj Hsrc a ha1 ha2 t2a hta b hb hbz off hoff
    rw [List.range'_succ]
    cases ho : oldpt i with
    | none =>
      have hai : a ≠ i := by
        intro he
        rw [he, ho] at hta
        exact Option.noConfusion hta
      rw [as_copy_tables_none oldpt alloc i _ acc ctr mem ho]
      have hpcr := preCountRange_succ_none oldpt i n ho
      have htr : preCountRange oldpt i (a - i) =
          preCountRange oldpt (i + 1) (a - (i + 1)) :=
        preCountRange_head_none oldpt i a (by omega) ho
      rw [htr]
      exact ih (i + 1) ctr _ mem
        (fun m h1 h2 => Hal m h1 (by omega))
        (fun m m' h1 h2 h3 h4 he => Hinj m m' h1 (by omega) h3 (by omega) he)
        (fun m h1 h2 a2 hA1 hA2 t2 ht2 k hk hkz =>
          Hsrc m h1 (by omega) a2 (by omega) (by omega) t2 ht2 k hk hkz)
        a (by omega) (by omega) t2a hta b hb hbz off hoff
    | some t2i =>
      rw [as_copy_tables_some oldpt alloc i _ acc ctr mem t2i ho, List.range_eq_range']
      have hpcr := preCountRange_succ_some oldpt i n t2i ho
      obtain ⟨hc0, hctr0, _⟩ := slots_char t2i alloc TABLE_SIZE 0 ctr (fun _ => 0) mem
        (fun m h1 h2 => (Hal m h1 (by omega)).2)
      rw [if_neg (by simp [hc0]), hctr0]
      by_cases hai : a = i
      · have ht2 : t2a = t2i := by
          rw [hai, ho] at hta
          exact (Option.some.inj hta).symm
        have h00 : preCountRange oldpt i (a - i) = 0 := by
          rw [hai, Nat.sub_self]
          rfl
        have hblt : countRange t2a 0 b < countRange t2a 0 TABLE_SIZE :=
          countRange_lt_of_nz t2a b TABLE_SIZE hb hbz
        rw [h00, ht2]
        have hU : ∀ m, ctr + countRange t2i 0 TABLE_SIZE ≤ m →
            m < ctr + countRange t2i 0 TABLE_SIZE + preCountRange oldpt (i + 1) n →
            ¬(alloc m ≤ alloc (ctr + 0 + countRange t2i 0 b) + off ∧
              alloc (ctr + 0 + countRange t2i 0 b) + off < alloc m + PAGE_SIZE) := by
          intro m h1 h2
          rw [ht2] at hblt
          have hmne : alloc (ctr + 0 + countRange t2i 0 b) ≠ alloc m := by
            intro he
            have := Hinj (ctr + 0 + countRange t2i 0 b) m (by omega) (by omega)
              (by omega) (by omega) he
            omega
          exact pages_disjoint (alloc (ctr + 0 + countRange t2i 0 b)) (alloc m)
            (alloc (ctr + 0 + countRange t2i 0 b) + off)
            (Hal (ctr + 0 + countRange t2i 0 b) (by omega) (by omega)).1
            (Hal m (by omega) (by omega)).1 hmne (Nat.le_add_right _ _) (by omega)
        rw [tables_mem_untouched oldpt alloc n (i + 1)
          (ctr + countRange t2i 0 TABLE_SIZE) _ _ _
          (fun m h1 h2 => (Hal m (by omega) (by omega)).2) hU]
        have hcp := slots_mem_copied t2i alloc TABLE_SIZE 0 ctr (fun _ => 0) mem
          (fun m h1 h2 => Hal m h1 (by omega))
          (fun m m' h1 h2 h3 h4 he => Hinj m m' h1 (by omega) h3 (by omega) he)
          (fun m h1 h2 k hk1 hk2 hkz =>
            Hsrc m h1 (by omega) i (Nat.le_refl i) (by omega) t2i ho k (by omega) hkz)
          b (Nat.zero_le b) (by omega) (by rw [← ht2]; exact hbz) off hoff
        rw [Nat.sub_zero] at hcp
        have harg : ctr + 0 + countRange t2i 0 b = ctr + countRange t2i 0 b := by omega
        rw [harg, hcp]
      · have htr : ctr + preCountRange oldpt i (a - i) =
            ctr + countRange t2i 0 TABLE_SIZE +
              preCountRange oldpt (i + 1) (a - (i + 1)) := by
          rw [preCountRange_head_some oldpt i a t2i (by omega) ho]
          omega
        rw [htr]
        rw [ih (i + 1) (ctr + countRange t2i 0 TABLE_SIZE) _ _
          (fun m h1 h2 => Hal m (by omega) (by omega))
          (fun m m' h1 h2 h3 h4 he => Hinj m m' (by omega) (by omega) (by omega)
            (by omega) he)
          (fun m h1 h2 a2 hA1 hA2 t2 ht2 k hk hkz =>
            Hsrc m (by omega) (by omega) a2 (by omega) (by omega) t2 ht2 k hk hkz)
          a (by omega) (by omega) t2a hta b hb hbz off hoff]
        exact slots_mem_untouched t2i alloc TABLE_SIZE 0 ctr (fun _ => 0) mem _
          (fun m h1 h2 =>
            pages_disjoint (srcAddr (t2a b)) (alloc m) (srcAddr (t2a b) + off)
              (srcAddr_aligned _) (Hal m h1 (by omega)).1
              (Ne.symm (Hsrc m h1 (by omega) a (by omega) (by omega) t2a hta b hb hbz))
              (Nat.le_add_right _ _) (by omega))

/-! ## Duplication of the region list inside `as_copy` -/

theorem perm_decompose (p : Nat) :
    (p &&& RF_R) ||| (p &&& RF_W) ||| (p &&& RF_X) = p &&& 0x7 := by
  rw [← Nat.and_or_distrib_left, ← Nat.and_or_distrib_left]
  have h : RF_R ||| RF_W ||| RF_X = 0x7 := by decide
  rw [h]

theorem region_roundtrip (newas : Addrspace) (r : Region)
    (h7 : r.permissions &&& 0x7 = r.permissions) (hnz : r.permissions ≠ 0)
    (hal : r.reg_vbase &&& PAGE_FRAME = r.reg_vbase)
    (hb : r.reg_vbase + r.reg_npages * PAGE_SIZE ≤ MIPS_KSEG0) :
    as_define_region newas r.reg_vbase ((r.reg_npages * PAGE_SIZE) % U32)
      (r.permissions &&& RF_R) (r.permissions &&& RF_W) (r.permissions &&& RF_X) =
    (0, ⟨newas.regions ++ [r], newas.pagetable⟩) := by
  have hvb0 : r.reg_vbase % PAGE_SIZE = 0 := by
    have h := mask_aligned r.reg_vbase
    rw [hal] at h
    exact h
  have hperm : (r.permissions &&& RF_R) ||| (r.permissions &&& RF_W) |||
      (r.permissions &&& RF_X) = r.permissions := by
    rw [perm_decompose, h7]
  have hms : r.reg_npages * PAGE_SIZE % U32 = r.reg_npages * PAGE_SIZE :=
    Nat.mod_eq_of_lt (by simp only [PAGE_SIZE, U32, MIPS_KSEG0] at hb ⊢; omega)
  have hoff : r.reg_vbase &&& (0xffffffff ^^^ PAGE_FRAME) = 0 := by
    have hc : (0xffffffff ^^^ PAGE_FRAME) = 4095 := by decide
    rw [hc, and_4095]
    simpa [PAGE_SIZE] using hvb0
  have hm1 : (r.reg_npages * PAGE_SIZE + 0) % U32 = r.reg_npages * PAGE_SIZE := by
    rw [Nat.add_zero]
    exact hms
  have hm2 : (r.reg_npages * PAGE_SIZE + PAGE_SIZE - 1) % U32 =
      r.reg_npages * PAGE_SIZE + PAGE_SIZE - 1 :=
    Nat.mod_eq_of_lt (by simp only [PAGE_SIZE, U32, MIPS_KSEG0] at hb ⊢; omega)
  have hS : r.reg_npages * PAGE_SIZE + PAGE_SIZE - 1 < U32 := by
    simp only [PAGE_SIZE, U32, MIPS_KSEG0] at hb ⊢
    omega
  have h_np : ((r.reg_npages * PAGE_SIZE % U32 +
      (r.reg_vbase &&& (0xffffffff ^^^ PAGE_FRAME))) % U32 + PAGE_SIZE - 1) % U32 &&&
      PAGE_FRAME = r.reg_npages * PAGE_SIZE := by
    rw [hms, hoff, hm1, hm2, and_pageframe_of_lt _ hS]
    simp only [PAGE_SIZE]
    omega
  unfold as_define_region
  rw [hperm, if_neg hnz, hal, h_np]
  have h_div : r.reg_npages * PAGE_SIZE / PAGE_SIZE = r.reg_npages :=
    Nat.mul_div_cancel _ (by norm_num [PAGE_SIZE])
  rw [h_div]

theorem copy_regions_id : ∀ (rs : List Region),
    (∀ r ∈ rs, r.permissions &&& 0x7 = r.permissions ∧ r.permissions ≠ 0 ∧
      r.reg_vbase &&& PAGE_FRAME = r.reg_vbase ∧
      r.reg_vbase + r.reg_npages * PAGE_SIZE ≤ MIPS_KSEG0) →
    ∀ newas : Addrspace,
      (as_copy_regions rs newas).1 = 0 ∧
      (as_copy_regions rs newas).2.regions = newas.regions ++ rs ∧
      (as_copy_regions rs newas).2.pagetable = newas.pagetable := by
  intro rs
  induction rs with
  | nil =>
    intro _ newas
    exact ⟨rfl, by simp [as_copy_regions], rfl⟩
  | cons r rs ih =>
    intro H newas
    obtain ⟨h7, hnz, hal, hb⟩ := H r (by simp)
    have hr := region_roundtrip newas r h7 hnz hal hb
    rw [as_copy_regions, hr]
    rw [if_neg (by simp)]
    obtain ⟨h1, h2, h3⟩ := ih (fun r2 hr2 => H r2 (by simp [hr2]))
      ⟨newas.regions ++ [r], newas.pagetable⟩
    refine ⟨h1, ?_, h3⟩
    rw [h2]
    simp

/-! ## C8: `as_copy` is a deep copy -/

set_option maxRecDepth 10000 in
/-- C8: given a source address space satisfying the data-model
invariants (3-bit non-empty region permissions, page-aligned in-bounds
regions, VALID non-zero PTEs referencing frames below `KSEG0`) and an
allocation oracle supplying distinct page-aligned direct-map frames
disjoint from every source frame, `as_copy` succeeds and produces an
address space with the identical region list, a non-zero PTE at exactly
the virtual pages where the source has one, each with the same VALID
and DIRTY bits but a frame distinct from every source frame, whose
page holds a byte-for-byte copy of the source page. -/
theorem as_copy_deep_copy (old : Addrspace) (alloc : Nat → Nat) (mem : Mem)
    (Hreg : ∀ r ∈ old.regions, r.permissions &&& 0x7 = r.permissions ∧
      r.permissions ≠ 0 ∧ r.reg_vbase &&& PAGE_FRAME = r.reg_vbase ∧
      r.reg_vbase + r.reg_npages * PAGE_SIZE ≤ MIPS_KSEG0)
    (Hpt : ∀ i t2, old.pagetable i = some t2 → ∀ j, t2 j ≠ 0 →
      t2 j &&& TLBLO_VALID ≠ 0 ∧ t2 j < MIPS_KSEG0)
    (Hgood : ∀ m, m < preCount old.pagetable TABLE_SIZE →
      alloc m % PAGE_SIZE = 0 ∧ MIPS_KSEG0 ≤ alloc m ∧ alloc m < U32)
    (Hinj : ∀ m m2, m < preCount old.pagetable TABLE_SIZE →
      m2 < preCount old.pagetable TABLE_SIZE → alloc m = alloc m2 → m = m2)
    (Hfresh : ∀ m, m < preCount old.pagetable TABLE_SIZE →
      ∀ i t2, old.pagetable i = some t2 → ∀ j, t2 j ≠ 0 →
        alloc m ≠ srcAddr (t2 j)) :
    (as_copy old alloc mem).1 = 0 ∧
    (as_copy old alloc mem).2.1.regions = old.regions ∧
    (∀ v, v < U32 →
      ((pagetable_lookup (as_copy old alloc mem).2.1.pagetable v ≠ 0 ↔
         pagetable_lookup old.pagetable v ≠ 0) ∧
       (pagetable_lookup old.pagetable v ≠ 0 →
         pagetable_lookup (as_copy old alloc mem).2.1.pagetable v &&& TLBLO_VALID =
           pagetable_lookup old.pagetable v &&& TLBLO_VALID ∧
         pagetable_lookup (as_copy old alloc mem).2.1.pagetable v &&& TLBLO_DIRTY =
           pagetable_lookup old.pagetable v &&& TLBLO_DIRTY ∧
         (∀ w, w < U32 → pagetable_lookup old.pagetable w ≠ 0 →
           pagetable_lookup (as_copy old alloc mem).2.1.pagetable v &&& PAGE_FRAME ≠
             pagetable_lookup old.pagetable w &&& PAGE_FRAME) ∧
         (∀ off, off < PAGE_SIZE →
           (as_copy old alloc mem).2.2
             (PADDR_TO_KVADDR
               (pagetable_lookup (as_copy old alloc mem).2.1.pagetable v &&&
                  PAGE_FRAME) + off) =
           mem (PADDR_TO_KVADDR
               (pagetable_lookup old.pagetable v &&& PAGE_FRAME) + off))))) := by
  have hPC : preCount old.pagetable TABLE_SIZE =
      preCountRange old.pagetable 0 TABLE_SIZE := preCount_eq _ _
  obtain ⟨hr1, hr2, hr3⟩ := copy_regions_id old.regions Hreg as_create
  have hr2b : (as_copy_regions old.regions as_create).2.regions = old.regions := by
    rw [hr2]
    simp [as_create]
  have Hnz : ∀ m, 0 ≤ m → m < 0 + preCountRange old.pagetable 0 TABLE_SIZE →
      alloc m ≠ 0 := by
    intro m _ hm
    have h := (Hgood m (by omega)).2.1
    simp only [MIPS_KSEG0] at h
    omega
  obtain ⟨tc, tctr, ttab⟩ := tables_char old.pagetable alloc TABLE_SIZE 0 0
    (as_copy_regions old.regions as_create).2.pagetable mem Hnz
  have heq : as_copy old alloc mem =
      ((as_copy_tables old.pagetable alloc (List.range' 0 TABLE_SIZE)
          (as_copy_regions old.regions as_create).2.pagetable 0 mem).code,
       ⟨(as_copy_regions old.regions as_create).2.regions,
        (as_copy_tables old.pagetable alloc (List.range' 0 TABLE_SIZE)
          (as_copy_regions old.regions as_create).2.pagetable 0 mem).pt⟩,
       (as_copy_tables old.pagetable alloc (List.range' 0 TABLE_SIZE)
          (as_copy_regions old.regions as_create).2.pagetable 0 mem).mem) := by
    rw [as_copy, if_neg (by simp [hr1]), List.range_eq_range']
  have e1 : (as_copy old alloc mem).1 =
      (as_copy_tables old.pagetable alloc (List.range' 0 TABLE_SIZE)
        (as_copy_regions old.regions as_create).2.pagetable 0 mem).code := by
    rw [heq]
  have e3 : (as_copy old alloc mem).2.1.pagetable =
      (as_copy_tables old.pagetable alloc (List.range' 0 TABLE_SIZE)
        (as_copy_regions old.regions as_create).2.pagetable 0 mem).pt := by
    rw [heq]
  have e4 : (as_copy old alloc mem).2.2 =
      (as_copy_tables old.pagetable alloc (List.range' 0 TABLE_SIZE)
        (as_copy_regions old.regions as_create).2.pagetable 0 mem).mem := by
    rw [heq]
  have e2 : (as_copy old alloc mem).2.1.regions = old.regions := by
    rw [heq]
    exact hr2b
  refine ⟨by rw [e1, tc], e2, ?_⟩
  rw [e3, e4]
  intro v hv
  have hi1 : indexT1 v < TABLE_SIZE := indexT1_lt v hv
  have hi2 : indexT2 v < TABLE_SIZE := by
    rw [indexT2_eq]
    have h := Nat.mod_lt (v >>> 12) (show 0 < 1024 by norm_num)
    simpa [TABLE_SIZE] using h
  have hlookT : ∀ t2, old.pagetable (indexT1 v) = some t2 →
      pagetable_lookup (as_copy_tables old.pagetable alloc (List.range' 0 TABLE_SIZE)
          (as_copy_regions old.regions as_create).2.pagetable 0 mem).pt v =
        newT2 alloc t2 (preCountRange old.pagetable 0 (indexT1 v)) (indexT2 v) := by
    intro t2 hO
    have htabv := ttab (indexT1 v)
    rw [if_pos (show 0 ≤ indexT1 v ∧ indexT1 v < 0 + TABLE_SIZE by omega), hO] at htabv
    have htabv2 : (as_copy_tables old.pagetable alloc (List.range' 0 TABLE_SIZE)
        (as_copy_regions old.regions as_create).2.pagetable 0 mem).pt (indexT1 v) =
        some (newT2 alloc t2
          (0 + preCountRange old.pagetable 0 (indexT1 v - 0))) := htabv
    rw [Nat.zero_add, Nat.sub_zero] at htabv2
    unfold pagetable_lookup
    rw [htabv2]
  have hlookTnone : old.pagetable (indexT1 v) = none →
      pagetable_lookup (as_copy_tables old.pagetable alloc (List.range' 0 TABLE_SIZE)
          (as_copy_regions old.regions as_create).2.pagetable 0 mem).pt v = 0 := by
    intro hO
    have htabv := ttab (indexT1 v)
    rw [if_pos (show 0 ≤ indexT1 v ∧ indexT1 v < 0 + TABLE_SIZE by omega), hO] at htabv
    have htabv2 : (as_copy_tables old.pagetable alloc (List.range' 0 TABLE_SIZE)
        (as_copy_regions old.regions as_create).2.pagetable 0 mem).pt (indexT1 v) =
        none := htabv
    unfold pagetable_lookup
    rw [htabv2]
  have hlookO : ∀ t2, old.pagetable (indexT1 v) = some t2 →
      pagetable_lookup old.pagetable v = t2 (indexT2 v) := by
    intro t2 hO
    unfold pagetable_lookup
    rw [hO]
  have hlookOnone : old.pagetable (indexT1 v) = none →
      pagetable_lookup old.pagetable v = 0 := by
    intro hO
    unfold pagetable_lookup
    rw [hO]
  have hidxlt : ∀ t2, old.pagetable (indexT1 v) = some t2 → t2 (indexT2 v) ≠ 0 →
      preCountRange old.pagetable 0 (indexT1 v) + countRange t2 0 (indexT2 v) <
        preCountRange old.pagetable 0 TABLE_SIZE := by
    intro t2 hO hz
    have hsplit := preCountRange_add old.pagetable 0 (indexT1 v)
      (TABLE_SIZE - indexT1 v)
    rw [Nat.zero_add,
      show TABLE_SIZE - indexT1 v + indexT1 v = TABLE_SIZE by omega] at hsplit
    have hhead := preCountRange_succ_some old.pagetable (indexT1 v)
      (TABLE_SIZE - indexT1 v - 1) t2 hO
    rw [show TABLE_SIZE - indexT1 v - 1 + 1 = TABLE_SIZE - indexT1 v by omega] at hhead
    have hcz := countRange_lt_of_nz t2 (indexT2 v) TABLE_SIZE hi2 hz
    omega
  constructor
  · -- non-zero at exactly the same virtual pages
    cases hO : old.pagetable (indexT1 v) with
    | none =>
      rw [hlookTnone hO, hlookOnone hO]
    | some t2 =>
      rw [hlookT t2 hO, hlookO t2 hO]
      simp only [newT2]
      rw [if_pos hi2]
      by_cases hz : t2 (indexT2 v) ≠ 0
      · rw [if_pos hz]
        constructor
        · intro _; exact hz
        · intro _
          exact ne_zero_of_valid _ (newPTE_valid _ _)
      · rw [if_neg hz]
        exact iff_of_false (fun h => h rfl) hz
  · intro hne
    cases hO : old.pagetable (indexT1 v) with
    | none => exact absurd (hlookOnone hO) hne
    | some t2 =>
      have hz : t2 (indexT2 v) ≠ 0 := by
        rw [hlookO t2 hO] at hne
        exact hne
      have hlt := hidxlt t2 hO hz
      have hG := Hgood (preCountRange old.pagetable 0 (indexT1 v) +
        countRange t2 0 (indexT2 v)) (by rw [hPC]; exact hlt)
      have hnewv : pagetable_lookup (as_copy_tables old.pagetable alloc
          (List.range' 0 TABLE_SIZE)
          (as_copy_regions old.regions as_create).2.pagetable 0 mem).pt v =
          newPTE (alloc (preCountRange old.pagetable 0 (indexT1 v) +
            countRange t2 0 (indexT2 v))) (t2 (indexT2 v)) := by
        rw [hlookT t2 hO]
        simp only [newT2]
        rw [if_pos hi2, if_pos hz]
      have holdv := hlookO t2 hO
      have hvd := Hpt (indexT1 v) t2 hO (indexT2 v) hz
      refine ⟨?_, ?_, ?_, ?_⟩
      · rw [hnewv, holdv, newPTE_valid_eq, valid_bits_eq _ hvd.1]
      · rw [hnewv, holdv, newPTE_dirty_eq _ _ hG.1 hG.2.1 hG.2.2]
      · intro w hw hnw
        cases hOw : old.pagetable (indexT1 w) with
        | none =>
          exact absurd (by unfold pagetable_lookup; rw [hOw]) hnw
        | some t2w =>
          have hzw : t2w (indexT2 w) ≠ 0 := by
            have h := hnw
            unfold pagetable_lookup at h
            rw [hOw] at h
            exact h
          have holdw : pagetable_lookup old.pagetable w = t2w (indexT2 w) := by
            unfold pagetable_lookup
            rw [hOw]
          have hvdw := Hpt (indexT1 w) t2w hOw (indexT2 w) hzw
          have hfr := Hfresh (preCountRange old.pagetable 0 (indexT1 v) +
            countRange t2 0 (indexT2 v)) (by rw [hPC]; exact hlt)
            (indexT1 w) t2w hOw (indexT2 w) hzw
          have hsr := srcAddr_eq (t2w (indexT2 w)) hvdw.2
          have hmle : t2w (indexT2 w) &&& PAGE_FRAME ≤ t2w (indexT2 w) :=
            Nat.and_le_left
          rw [hnewv, holdw, newPTE_frame _ _ hG.1 hG.2.1 hG.2.2]
          intro hcontra
          apply hfr
          rw [hsr]
          obtain ⟨hg1, hg2, hg3⟩ := hG
          simp only [MIPS_KSEG0] at hg2 hvdw hsr hcontra ⊢
          omega
      · intro off hoff
        rw [hnewv, holdv, newPTE_frame _ _ hG.1 hG.2.1 hG.2.2]
        have hmle : t2 (indexT2 v) &&& PAGE_FRAME ≤ t2 (indexT2 v) :=
          Nat.and_le_left
        have hP1 : PADDR_TO_KVADDR (alloc (preCountRange old.pagetable 0 (indexT1 v) +
            countRange t2 0 (indexT2 v)) - MIPS_KSEG0) =
            alloc (preCountRange old.pagetable 0 (indexT1 v) +
              countRange t2 0 (indexT2 v)) := by
          unfold PADDR_TO_KVADDR
          obtain ⟨hg1, hg2, hg3⟩ := hG
          simp only [MIPS_KSEG0, U32] at hg2 hg3 ⊢
          omega
        have hP2 : PADDR_TO_KVADDR (t2 (indexT2 v) &&& PAGE_FRAME) =
            srcAddr (t2 (indexT2 v)) := by
          rw [srcAddr_eq _ hvd.2]
          unfold PADDR_TO_KVADDR
          have h2 := hvd.2
          simp only [MIPS_KSEG0, U32] at h2 ⊢
          omega
        rw [hP1, hP2]
        have hmem := tables_mem_copied old.pagetable alloc TABLE_SIZE 0 0
          (as_copy_regions old.regions as_create).2.pagetable mem
          (fun m h1 h2 => ⟨(Hgood m (by rw [hPC]; omega)).1, by
            have h := (Hgood m (by rw [hPC]; omega)).2.1
            simp only [MIPS_KSEG0] at h
            omega⟩)
          (fun m m2 h1 h2 h3 h4 he => Hinj m m2 (by rw [hPC]; omega)
            (by rw [hPC]; omega) he)
          (fun m h1 h2 a2 hA1 hA2 t2x ht2x k hk hkz =>
            Hfresh m (by rw [hPC]; omega) a2 t2x ht2x k hkz)
          (indexT1 v) (Nat.zero_le _) (by omega) t2 hO (indexT2 v) hi2 hz off hoff
        rw [Nat.zero_add, Nat.sub_zero] at hmem
        exact hmem

set_option maxRecDepth 100000 in
theorem as_copy_deep_copy_witness :
    (as_copy as1 (fun _ => 0x90000000) memAA).1 = 0 ∧
    (as_copy as1 (fun _ => 0x90000000) memAA).2.1.regions = as1.regions := by
  have h0 : preCount as1.pagetable TABLE_SIZE = 0 := by decide
  have h := as_copy_deep_copy as1 (fun _ => 0x90000000) memAA
    (by
      intro r hr
      rw [show as1.regions = [reg1] from rfl] at hr
      simp at hr
      subst hr
      exact ⟨by decide, by decide, by decide, by decide⟩)
    (by intro i t2 hx; simp [as1, emptyPT] at hx)
    (by intro m hm; rw [h0] at hm; omega)
    (by intro m m2 hm hm2 he; rw [h0] at hm; omega)
    (by intro m hm; rw [h0] at hm; omega)
  exact ⟨h.1, h.2.1⟩

end VM
